import Mathlib

/-!
# Verification of the go-ignore pattern-matching library

The embedding is byte-level: Go strings and byte slices are modelled as
`List Nat`, one element per byte.  All inputs exercised by the claims are
ASCII, where Go's byte indexing and this list view coincide.  Stateful
code (the shared backtracking budget `matchContext`, mutated through a
pointer in Go) is modelled by explicit state passing: every function that
ticks the context returns its result together with the updated context.

Byte constants used throughout (ASCII): 9 tab, 10 LF, 13 CR, 32 space,
33 bang, 35 hash, 42 star, 45 dash, 46 dot, 47 slash, 58 colon,
63 question mark, 91 left bracket, 92 backslash, 93 right bracket,
94 caret.
-/

namespace GoIgnore

/-- Encode a Lean string literal as the list of its character code points.
Helper for writing concrete inputs; for ASCII strings this agrees with
Go's UTF-8 byte view. -/
def bytes (s : String) : List Nat := s.data.map Char.toNat

/-! ## match.go: the backtracking budget (`matchContext`) -/

/-- `DefaultMaxBacktrackIterations` from match.go. -/
def DefaultMaxBacktrackIterations : Int := 10000

/-- `matchContext` from match.go: an iteration counter and a ceiling.
`iterations` only ever grows, so it is a `Nat`; `maxIter` is a Go `int`
and may be negative (unlimited), so it is an `Int`. -/
structure matchContext where
  iterations : Nat
  maxIter : Int
deriving DecidableEq

/-- `newMatchContext` from match.go: 0 selects the default ceiling. -/
def newMatchContext (maxIter : Int) : matchContext :=
  if maxIter = 0 then { iterations := 0, maxIter := DefaultMaxBacktrackIterations }
  else { iterations := 0, maxIter := maxIter }

/-- `tick` from match.go: increment the counter; `true` while within the
ceiling, always `true` when the ceiling is negative (unlimited). -/
def tick (ctx : matchContext) : Bool × matchContext :=
  if ctx.maxIter < 0 then (true, { ctx with iterations := ctx.iterations + 1 })
  else (decide ((ctx.iterations + 1 : Int) ≤ ctx.maxIter),
        { ctx with iterations := ctx.iterations + 1 })

/-! ## normalize.go -/

/-- Single-byte `strings.ReplaceAll` / `bytes.ReplaceAll`. -/
def replaceByte (a b : Nat) (l : List Nat) : List Nat :=
  l.map (fun c => if c = a then b else c)

/-- `strings.Contains(p, "//")`: some adjacent pair of bytes is `//`. -/
def hasDoubleSlash : List Nat → Bool
  | c1 :: c2 :: rest => (c1 = 47 && c2 = 47) || hasDoubleSlash (c2 :: rest)
  | _ => false

/-- The slash-collapsing builder loop from `normalizePath` (step 2):
`prevSlash` is the builder's state. -/
def collapseAux (prevSlash : Bool) : List Nat → List Nat
  | [] => []
  | c :: rest =>
    if c = 47 then
      if prevSlash then collapseAux true rest
      else 47 :: collapseAux true rest
    else c :: collapseAux false rest

/-- Step 3 of `normalizePath`: the `for strings.HasPrefix(p, "./")` loop. -/
def stripDotSlashes : List Nat → List Nat
  | a :: b :: rest => if a = 46 ∧ b = 47 then stripDotSlashes rest else a :: b :: rest
  | l => l

/-- `strings.TrimSuffix(p, "/")`. -/
def trimSuffixSlash (p : List Nat) : List Nat :=
  if p.getLast? = some 47 then p.dropLast else p

/-- Step 2 of `normalizePath`: collapse consecutive slashes, guarded by the
`strings.Contains(p, "//")` check exactly as in the source. -/
def collapseStep (p : List Nat) : List Nat :=
  if hasDoubleSlash p then collapseAux false p else p

/-- `normalizePath` from normalize.go, with the `runtime.GOOS == "windows"`
test made an explicit parameter `w`. -/
def normalizePathW (w : Bool) (p : List Nat) : List Nat :=
  trimSuffixSlash (stripDotSlashes (collapseStep (if w then replaceByte 92 47 p else p)))

/-- The build we verify against is the Unix one (the repository's own test
suite runs on Linux, where backslash is a valid filename byte). -/
def goosWindows : Bool := false

/-- `normalizePath` as compiled for the Unix build. -/
def normalizePath (p : List Nat) : List Nat := normalizePathW goosWindows p

/-- `normalizeBasePath` from normalize.go. -/
def normalizeBasePath (basePath : List Nat) : List Nat :=
  if basePath = [] then [] else normalizePath basePath

/-- Step 1 of `normalizeContent`: the BOM-stripping loop (`EF BB BF`). -/
def stripBOMs : List Nat → List Nat
  | a :: b :: c :: rest =>
    if a = 0xEF ∧ b = 0xBB ∧ c = 0xBF then stripBOMs rest else a :: b :: c :: rest
  | l => l

/-- `bytes.ReplaceAll(content, "\r\n", "\n")` (leftmost, non-overlapping). -/
def replaceCRLF : List Nat → List Nat
  | [] => []
  | [c] => [c]
  | a :: b :: rest =>
    if a = 13 ∧ b = 10 then 10 :: replaceCRLF rest
    else a :: replaceCRLF (b :: rest)

/-- `bytes.ReplaceAll(content, "\r", "\n")`. -/
def replaceCR (l : List Nat) : List Nat := replaceByte 13 10 l

/-- `normalizeContent` from normalize.go. -/
def normalizeContent (content : List Nat) : List Nat :=
  if content = [] then content
  else replaceCR (replaceCRLF (stripBOMs content))

/-- `trimTrailingWhitespace` from normalize.go, rendered on lists via
`reverse`: `wsLen` is the number of trailing space/tab bytes (so `end` in
the Go code is `line.length - wsLen`), `keep` is `line[:end]` reversed,
and `bs` counts the backslashes immediately before position `end`. -/
def trimTrailingWhitespace (line : List Nat) : List Nat :=
  let rev := line.reverse
  let wsLen := (rev.takeWhile (fun c => c = 32 || c = 9)).length
  if wsLen = 0 then line
  else
    let keep := rev.drop wsLen
    let bs := (keep.takeWhile (fun c => c = 92)).length
    if bs % 2 = 1 ∧ line.get? (line.length - wsLen) = some 32 then
      (keep.drop 1).reverse ++ [32]
    else keep.reverse

/-! ## match.go: `splitPath` -/

/-- `strings.Split` on a single-byte separator: always returns one more
part than there are separators. -/
def splitB (sep : Nat) : List Nat → List (List Nat)
  | [] => [[]]
  | c :: rest =>
    if c = sep then [] :: splitB sep rest
    else
      match splitB sep rest with
      | part :: parts => (c :: part) :: parts
      | [] => [[c]]

/-- `splitPath` from match.go: split on `/`, dropping empty segments. -/
def splitPath (path : List Nat) : List (List Nat) :=
  if path = [] then []
  else (splitB 47 path).filter (fun p => p ≠ [])

/-! ## pattern.go: data model and parser -/

/-- `ParseWarning` from pattern.go. -/
structure ParseWarning where
  Pattern : List Nat
  Message : List Nat
  Line : Nat
  BasePath : List Nat
deriving DecidableEq

/-- `segment` from pattern.go. -/
structure segment where
  value : List Nat
  wildcard : Bool
  doubleStar : Bool
deriving DecidableEq

/-- `rule` from pattern.go. -/
structure rule where
  pattern : List Nat
  basePath : List Nat
  segments : List segment
  line : Nat
  negate : Bool
  dirOnly : Bool
  anchored : Bool
deriving DecidableEq

/-- `parseSegments` from pattern.go: split the pattern on `/`, drop empty
parts, and classify each part (`**` is double-star; a part containing any
of `* ? \ [` is a wildcard; otherwise a literal). -/
def parseSegments (pattern : List Nat) : List segment :=
  (splitB 47 pattern).filterMap fun part =>
    if part = [] then none
    else if part = [42, 42] then some { value := [], wildcard := false, doubleStar := true }
    else if part.any (fun c => c = 42 || c = 63 || c = 92 || c = 91) then
      some { value := part, wildcard := true, doubleStar := false }
    else some { value := part, wildcard := false, doubleStar := false }

/-- `determineAnchoring` from pattern.go.  Returns
(anchored, trimmed line, became-empty-after-leading-slash). -/
def determineAnchoring (line : List Nat) : Bool × List Nat × Bool :=
  match line with
  | 47 :: rest => if rest = [] then (true, [], true) else (true, rest, false)
  | _ =>
    if line.contains 47 && !([42, 42, 47].isPrefixOf line) then (true, line, false)
    else (false, line, false)

/-- Step 4 of `parseLine`: `\!` at the start escapes the bang (strip the
backslash only); otherwise a leading `!` sets the negate flag. -/
def stripNegate (t : List Nat) : Bool × List Nat :=
  if [92, 33].isPrefixOf t then (false, t.drop 1)
  else if t.head? = some 33 then (true, t.drop 1)
  else (false, t)

/-- Step 5 of `parseLine`: `\#` at the start escapes the hash. -/
def stripHash (l : List Nat) : List Nat :=
  if [92, 35].isPrefixOf l then l.drop 1 else l

/-- Step 6 of `parseLine`: a trailing `/` sets the dirOnly flag. -/
def stripDirOnly (l : List Nat) : Bool × List Nat :=
  if l.getLast? = some 47 then (true, l.dropLast) else (false, l)

/-- The count of consecutive trailing backslashes (step 8b of `parseLine`). -/
def trailingBackslashCount (l : List Nat) : Nat :=
  (l.reverse.takeWhile (fun c => c = 92)).length

/-- `parseLine` from pattern.go.  The Go code checks
`strings.HasSuffix(line, "\\")` and then counts trailing backslashes; a
line ends with `\` exactly when the trailing-backslash count is positive,
so the two conditions are folded into one conjunction here. -/
def parseLine (line : List Nat) (lineNum : Nat) (basePath : List Nat) :
    Option rule × Option ParseWarning :=
  let t := trimTrailingWhitespace line
  if t = [] then (none, none)
  else if t.head? = some 35 then (none, none)
  else
    let original := t
    let n1 := stripNegate t
    let l2 := stripHash n1.2
    let d3 := stripDirOnly l2
    let l3 := d3.2
    if l3 = [] then
      (none, some { Pattern := original, Message := bytes "pattern is empty after processing",
                    Line := lineNum, BasePath := [] })
    else if l3.getLast? = some 92 ∧ trailingBackslashCount l3 % 2 = 1 then
      (none, some { Pattern := original,
                    Message := bytes "trailing backslash is invalid (pattern never matches)",
                    Line := lineNum, BasePath := [] })
    else
      let a4 := determineAnchoring l3
      if a4.2.2 then
        (none, some { Pattern := original,
                      Message := bytes "pattern is empty after removing leading slash",
                      Line := lineNum, BasePath := [] })
      else
        (some { pattern := original, basePath := basePath, segments := parseSegments a4.2.1,
                line := lineNum, negate := n1.1, dirOnly := d3.1, anchored := a4.1 },
         none)

/-- `parseLines` from pattern.go: normalize the content, split it into
lines, and parse each line independently (1-indexed line numbers); a
warning gets the batch's base path filled in. -/
def parseLines (basePath : List Nat) (content : List Nat) : List rule × List ParseWarning :=
  let content2 := normalizeContent content
  let basePath2 := normalizeBasePath basePath
  (splitB 10 content2).enum.foldl
    (fun acc p =>
      let r := parseLine p.2 (p.1 + 1) basePath2
      (acc.1 ++ r.1.toList,
       acc.2 ++ (r.2.map (fun w => { w with BasePath := basePath2 })).toList))
    ([], [])

/-! ## match.go: the matching engine -/

/-- `strings.ToLower` restricted to the ASCII range (the only range the
claims exercise; Go's Unicode folding agrees with this on ASCII bytes). -/
def asciiToLower (c : Nat) : Nat :=
  if 65 ≤ c ∧ c ≤ 90 then c + 32 else c

/-- `strings.Index(pattern, ":]")`: index of the leftmost `:]`. -/
def findColonBracket : List Nat → Option Nat
  | 58 :: 93 :: _ => some 0
  | _ :: rest => (findColonBracket rest).map (fun i => i + 1)
  | [] => none

/-- `posixClass` from match.go: predicate for a named POSIX class. -/
def posixClass (name : List Nat) : Option (Nat → Bool) :=
  if name = bytes "alpha" then some (fun c => (97 ≤ c ∧ c ≤ 122) ∨ (65 ≤ c ∧ c ≤ 90))
  else if name = bytes "digit" then some (fun c => 48 ≤ c ∧ c ≤ 57)
  else if name = bytes "alnum" then
    some (fun c => (97 ≤ c ∧ c ≤ 122) ∨ (65 ≤ c ∧ c ≤ 90) ∨ (48 ≤ c ∧ c ≤ 57))
  else if name = bytes "upper" then some (fun c => 65 ≤ c ∧ c ≤ 90)
  else if name = bytes "lower" then some (fun c => 97 ≤ c ∧ c ≤ 122)
  else if name = bytes "space" then
    some (fun c => c = 32 ∨ c = 9 ∨ c = 10 ∨ c = 13 ∨ c = 12 ∨ c = 11)
  else if name = bytes "blank" then some (fun c => c = 32 ∨ c = 9)
  else if name = bytes "print" then some (fun c => 0x20 ≤ c ∧ c ≤ 0x7E)
  else if name = bytes "graph" then some (fun c => 0x20 < c ∧ c ≤ 0x7E)
  else if name = bytes "punct" then
    some (fun c => (33 ≤ c ∧ c ≤ 47) ∨ (58 ≤ c ∧ c ≤ 64) ∨ (91 ≤ c ∧ c ≤ 96) ∨ (123 ≤ c ∧ c ≤ 126))
  else if name = bytes "cntrl" then some (fun c => c < 0x20 ∨ c = 0x7F)
  else if name = bytes "xdigit" then
    some (fun c => (48 ≤ c ∧ c ≤ 57) ∨ (97 ≤ c ∧ c ≤ 102) ∨ (65 ≤ c ∧ c ≤ 70))
  else none

/-- The scanning loop of `matchCharClass` from match.go, implemented by
structural recursion on a fuel argument so that it computes by kernel
reduction.  `i` is the Go index into `pattern`; `first` is true only
before the first member; `inClass` accumulates membership (it is only
ever set, never cleared).  Every recursive call increases `i`, so a fuel
of `pattern.length + 1 - i` always suffices; the `classLoop` wrapper
below supplies exactly that fuel. -/
def classLoopAux (fuel : Nat) (pattern : List Nat) (ch : Nat) (i : Nat)
    (first negate inClass : Bool) : Bool × Nat × Bool :=
  match fuel with
  | 0 => (false, 0, false)
  | fuel + 1 =>
  if i < pattern.length then
    let c := pattern.getD i 0
    if c = 93 ∧ first = false then
      (if negate then !inClass else inClass, i + 1, true)
    else if c = 91 ∧ i + 1 < pattern.length ∧ pattern.getD (i + 1) 0 = 58 then
      -- POSIX class [:name:]
      match findColonBracket (pattern.drop (i + 2)) with
      | some e =>
        let name := (pattern.drop (i + 2)).take e
        match posixClass name with
        | some pred =>
          classLoopAux fuel pattern ch (i + 2 + e + 2) false negate (inClass || pred ch)
        | none => classLoopAux fuel pattern ch (i + 1) false negate (inClass || decide (ch = 91))
      | none => classLoopAux fuel pattern ch (i + 1) false negate (inClass || decide (ch = 91))
    else if c = 92 ∧ i + 1 < pattern.length then
      -- escaped member; j is the index of the escaped character
      let j := i + 1
      let c1 := pattern.getD j 0
      if j + 2 < pattern.length ∧ pattern.getD (j + 1) 0 = 45 ∧ pattern.getD (j + 2) 0 ≠ 93 then
        let hi := pattern.getD (j + 2) 0
        if hi = 92 ∧ j + 3 < pattern.length then
          let hi2 := pattern.getD (j + 3) 0
          classLoopAux fuel pattern ch (j + 4) false negate
            (inClass || decide (c1 ≤ hi2 ∧ c1 ≤ ch ∧ ch ≤ hi2))
        else
          classLoopAux fuel pattern ch (j + 3) false negate
            (inClass || decide (c1 ≤ hi ∧ c1 ≤ ch ∧ ch ≤ hi))
      else classLoopAux fuel pattern ch (j + 1) false negate (inClass || decide (ch = c1))
    else if i + 2 < pattern.length ∧ pattern.getD (i + 1) 0 = 45 ∧ pattern.getD (i + 2) 0 ≠ 93 then
      -- range member a-z (with escapable upper endpoint)
      let hi := pattern.getD (i + 2) 0
      if hi = 92 ∧ i + 3 < pattern.length then
        let hi2 := pattern.getD (i + 3) 0
        classLoopAux fuel pattern ch (i + 4) false negate
          (inClass || decide (c ≤ hi2 ∧ c ≤ ch ∧ ch ≤ hi2))
      else
        classLoopAux fuel pattern ch (i + 3) false negate
          (inClass || decide (c ≤ hi ∧ c ≤ ch ∧ ch ≤ hi))
    else classLoopAux fuel pattern ch (i + 1) false negate (inClass || decide (ch = c))
  else (false, 0, false)

/-- The scanning loop of `matchCharClass`, at its canonical (sufficient)
fuel. -/
def classLoop (pattern : List Nat) (ch : Nat) (i : Nat) (first negate inClass : Bool) :
    Bool × Nat × Bool :=
  classLoopAux (pattern.length + 1 - i) pattern ch i first negate inClass

/-- `matchCharClass` from match.go: `pattern.getD pos 0` must be `[`.
Returns (matched, newPos, valid). -/
def matchCharClass (pattern : List Nat) (pos : Nat) (ch : Nat) : Bool × Nat × Bool :=
  if pos + 1 ≥ pattern.length then (false, 0, false)
  else
    let i := pos + 1
    if pattern.getD i 0 = 33 ∨ pattern.getD i 0 = 94 then
      classLoop pattern ch (i + 1) true true false
    else classLoop pattern ch i true false false

/-- The backtracking-loop shape shared by the three `**`/`*` loops of
match.go (the double-star loops of `matchSegmentsExact` and
`matchSegmentsPrefix`, and the star loop of `matchGlobRecursive`): try
`f` (the rest of the pattern) against every suffix of the input, ticking
the shared budget once per attempt. -/
def starLoop {α : Type} (f : List α → matchContext → Bool × matchContext) :
    List α → matchContext → Bool × matchContext
  | path, ctx =>
    let r := f path ctx
    if r.1 then (true, r.2)
    else
      let t := tick r.2
      if t.1 = false then (false, t.2)
      else
        match path with
        | [] => (false, t.2)
        | _ :: rest => starLoop f rest t.2

/-- `matchGlobRecursive` from match.go: character-level glob matching with
`*`, `?`, `[...]` classes and `\` escapes, charging the shared budget once
per outer-loop iteration and once per `*` backtracking attempt.
Implemented by structural recursion on a fuel argument so that it computes
by kernel reduction; every recursive call strictly decreases
`pattern.length + s.length`, so a fuel of `pattern.length + s.length + 1`
always suffices; the `matchGlobRecursive` wrapper below supplies exactly
that fuel. -/
def mgrAux (fuel : Nat) (pattern s : List Nat) (ctx : matchContext) : Bool × matchContext :=
  match fuel with
  | 0 => (false, ctx)
  | fuel + 1 =>
    match pattern with
    | [] => (s.isEmpty, ctx)
    | c :: pr =>
      let t := tick ctx
      if t.1 = false then (false, t.2)
      else
        let ctx1 := t.2
        if c = 42 then
          -- skip consecutive stars; a trailing star matches everything
          let p2 := pr.dropWhile (fun b => b = 42)
          if p2 = [] then (true, ctx1)
          else starLoop (fun s2 c2 => mgrAux fuel p2 s2 c2) s ctx1
        else if c = 63 then
          match s with
          | [] => (false, ctx1)
          | _ :: sr => mgrAux fuel pr sr ctx1
        else if c = 91 then
          match s with
          | [] => (false, ctx1)
          | s0 :: sr =>
            if s0 = 47 then (false, ctx1)
            else
              let mcc := matchCharClass (c :: pr) 0 s0
              if mcc.2.2 then
                if mcc.1 = false then (false, ctx1)
                else mgrAux fuel ((c :: pr).drop mcc.2.1) sr ctx1
              else
                -- unclosed bracket: '[' is a literal
                if s0 = c then mgrAux fuel pr sr ctx1 else (false, ctx1)
        else
          match pr with
          | p1 :: pr2 =>
            if c = 92 then
              -- backslash escapes the next character
              match s with
              | [] => (false, ctx1)
              | s0 :: sr => if p1 = s0 then mgrAux fuel pr2 sr ctx1 else (false, ctx1)
            else
              match s with
              | [] => (false, ctx1)
              | s0 :: sr => if c = s0 then mgrAux fuel (p1 :: pr2) sr ctx1 else (false, ctx1)
          | [] =>
            match s with
            | [] => (false, ctx1)
            | s0 :: sr => if c = s0 then mgrAux fuel [] sr ctx1 else (false, ctx1)

/-- `matchGlobRecursive`, at its canonical (sufficient) fuel. -/
def matchGlobRecursive (pattern s : List Nat) (ctx : matchContext) : Bool × matchContext :=
  mgrAux (pattern.length + s.length + 1) pattern s ctx

/-- The `*` backtracking loop of `matchGlobRecursive` as in the source:
try the remaining pattern against every suffix of `s`. -/
def globStarLoop (pattern s : List Nat) (ctx : matchContext) : Bool × matchContext :=
  starLoop (fun s2 c => matchGlobRecursive pattern s2 c) s ctx

/-- `matchGlob` from match.go: fast paths, then the recursive matcher. -/
def matchGlob (pattern s : List Nat) (ctx : matchContext) : Bool × matchContext :=
  if pattern.any (fun c => c = 42 || c = 63 || c = 92 || c = 91) = false then
    -- fast path: no wildcards or escapes
    (pattern = s, ctx)
  else if pattern = [42] then (true, ctx)
  else if pattern.contains 63 = false ∧ pattern.contains 92 = false ∧
      pattern.contains 91 = false then
    if pattern.count 42 = 1 ∧ pattern.getLast? = some 42 then
      -- fast path: prefix* pattern
      (pattern.dropLast.isPrefixOf s, ctx)
    else if pattern.count 42 = 1 ∧ pattern.head? = some 42 then
      -- fast path: *suffix pattern
      (pattern.tail.isSuffixOf s, ctx)
    else matchGlobRecursive pattern s ctx
  else matchGlobRecursive pattern s ctx

/-- `matchSingleSegment` from match.go: note that under case-insensitive
matching only the path segment is lowered -- the code relies on pattern
values having been pre-lowercased at `AddPatterns` time. -/
def matchSingleSegment (seg : segment) (pathSeg : List Nat) (caseInsensitive : Bool)
    (ctx : matchContext) : Bool × matchContext :=
  if seg.doubleStar then (true, ctx)
  else if seg.wildcard = false then
    -- literal match (the path side alone is lowered when case-insensitive)
    ((seg.value = (if caseInsensitive then pathSeg.map asciiToLower else pathSeg) : Bool), ctx)
  else matchGlob seg.value (if caseInsensitive then pathSeg.map asciiToLower else pathSeg) ctx

/-- `matchSegmentsExact` from match.go. -/
def matchSegmentsExact (pattern : List segment) (path : List (List Nat))
    (ctx : matchContext) (caseInsensitive : Bool) : Bool × matchContext :=
  let t := tick ctx
  if t.1 = false then (false, t.2)
  else
    let ctx1 := t.2
    match pattern with
    | [] => (path.isEmpty, ctx1)
    | seg :: pr =>
      if seg.doubleStar then
        starLoop (fun p c => matchSegmentsExact pr p c caseInsensitive) path ctx1
      else
        match path with
        | [] => (false, ctx1)
        | p0 :: prest =>
          let m := matchSingleSegment seg p0 caseInsensitive ctx1
          if m.1 = false then (false, m.2)
          else matchSegmentsExact pr prest m.2 caseInsensitive

/-- `matchSegmentsPrefix` from match.go (named `...PrefixMode` here): like
`matchSegmentsExact`, but an exhausted pattern matches only if at least
one path segment remains. -/
def matchSegmentsPrefixMode (pattern : List segment) (path : List (List Nat))
    (ctx : matchContext) (caseInsensitive : Bool) : Bool × matchContext :=
  let t := tick ctx
  if t.1 = false then (false, t.2)
  else
    let ctx1 := t.2
    match pattern with
    | [] => (!path.isEmpty, ctx1)
    | seg :: pr =>
      if seg.doubleStar then
        starLoop (fun p c => matchSegmentsPrefixMode pr p c caseInsensitive) path ctx1
      else
        match path with
        | [] => (false, ctx1)
        | p0 :: prest =>
          let m := matchSingleSegment seg p0 caseInsensitive ctx1
          if m.1 = false then (false, m.2)
          else matchSegmentsPrefixMode pr prest m.2 caseInsensitive

/-- The floating-offset loop of `matchRule`: `count` iterations remain
(`count = maxStart + 1` at entry); at each offset the loop ticks first
(returning an early `some false` on exhaustion, which aborts `matchRule`
without trying the double-star special case), then tries an exact or
prefix match at the current suffix.  `none` means the loop finished with
no match. -/
def floatLoop (segs : List segment) (path : List (List Nat)) (count : Nat)
    (prefixMatch caseInsensitive : Bool) (ctx : matchContext) :
    Option Bool × matchContext :=
  match count with
  | 0 => (none, ctx)
  | count2 + 1 =>
    let t := tick ctx
    if t.1 = false then (some false, t.2)
    else
      let m := if prefixMatch then matchSegmentsPrefixMode segs path t.2 caseInsensitive
               else matchSegmentsExact segs path t.2 caseInsensitive
      if m.1 then (some true, m.2)
      else floatLoop segs path.tail count2 prefixMatch caseInsensitive m.2

/-- `matchRule` from match.go. -/
def matchRule (r : rule) (path : List Nat) (pathSegments : List (List Nat))
    (isDir caseInsensitive : Bool) (ctx : matchContext) : Bool × matchContext :=
  let t := tick ctx
  if t.1 = false then (false, t.2)
  else
    let ctx1 := t.2
    -- basePath scoping
    let scopedSegs : Option (List (List Nat)) :=
      if r.basePath = [] then some pathSegments
      else if ¬ (r.basePath ++ [47]).isPrefixOf path ∧ path ≠ r.basePath then none
      else if path = r.basePath then some []
      else some (splitPath (path.drop (r.basePath.length + 1)))
    match scopedSegs with
    | none => (false, ctx1)
    | some matchSegs =>
      if matchSegs = [] then (decide (r.segments = []), ctx1)
      else
        let prefixMatch := r.dirOnly && !isDir
        if r.anchored then
          if prefixMatch then matchSegmentsPrefixMode r.segments matchSegs ctx1 caseInsensitive
          else matchSegmentsExact r.segments matchSegs ctx1 caseInsensitive
        else
          let maxStart : Int :=
            if prefixMatch then (matchSegs.length : Int) - 1
            else (matchSegs.length : Int) - (r.segments.length : Int)
          let count : Nat := if maxStart < 0 then 0 else maxStart.toNat + 1
          let fl := floatLoop r.segments matchSegs count prefixMatch caseInsensitive ctx1
          match fl.1 with
          | some b => (b, fl.2)
          | none =>
            -- the double-star special case
            match r.segments with
            | seg0 :: _ =>
              if seg0.doubleStar then
                if prefixMatch then
                  matchSegmentsPrefixMode r.segments matchSegs fl.2 caseInsensitive
                else matchSegmentsExact r.segments matchSegs fl.2 caseInsensitive
              else (false, fl.2)
            | [] => (false, fl.2)

/-! ## matcher.go: the Matcher facade -/

/-- `MatchResult` from matcher.go; defaults are Go's zero values. -/
structure MatchResult where
  Rule : List Nat := []
  BasePath : List Nat := []
  Line : Nat := 0
  Ignored : Bool := false
  Matched : Bool := false
  Negated : Bool := false
deriving DecidableEq

/-- `MatcherOptions` from matcher.go. -/
structure MatcherOptions where
  MaxBacktrackIterations : Int
  CaseInsensitive : Bool
deriving DecidableEq

/-- `Matcher` from matcher.go.  The warning-handler callback and the lock
are not modelled (no claim exercises the handler; the lock is a
concurrency artefact). -/
structure Matcher where
  rules : List rule
  warnings : List ParseWarning
  opts : MatcherOptions
deriving DecidableEq

/-- `New` from matcher.go. -/
def Matcher.New : Matcher :=
  { rules := [], warnings := [],
    opts := { MaxBacktrackIterations := DefaultMaxBacktrackIterations,
              CaseInsensitive := false } }

/-- `NewWithOptions` from matcher.go. -/
def Matcher.NewWithOptions (opts : MatcherOptions) : Matcher :=
  let opts2 := if opts.MaxBacktrackIterations = 0 then
    { opts with MaxBacktrackIterations := DefaultMaxBacktrackIterations } else opts
  { rules := [], warnings := [], opts := opts2 }

/-- `AddPatterns` from matcher.go, in warning-collecting mode (no handler
registered; the `content == nil` no-op branch is not modelled). -/
def Matcher.AddPatterns (m : Matcher) (basePath content : List Nat) :
    Matcher × List ParseWarning :=
  let pr := parseLines basePath content
  ({ m with rules := m.rules ++ pr.1, warnings := m.warnings ++ pr.2 }, pr.2)

/-- One step of the `MatchWithReason` rule loop: a matching rule overwrites
the running result (ignored = not negated); a non-matching rule leaves it. -/
def matchStep (path : List Nat) (pathSegments : List (List Nat)) (isDir ci : Bool)
    (acc : MatchResult × matchContext) (r : rule) : MatchResult × matchContext :=
  let mr := matchRule r path pathSegments isDir ci acc.2
  if mr.1 then
    ({ Rule := r.pattern, BasePath := r.basePath, Line := r.line,
       Ignored := !r.negate, Matched := true, Negated := r.negate }, mr.2)
  else (acc.1, mr.2)

/-- `MatchWithReason` from matcher.go.  The per-query `matchContext` is
created once and shared by every rule of the query (match.go documents the
budget as "shared across all rules for a single Match call"; the spec's
Match Context is "ephemeral per top-level query"). -/
def Matcher.MatchWithReason (m : Matcher) (path : List Nat) (isDir : Bool) : MatchResult :=
  let path2 := normalizePath path
  if path2 = [] then {}
  else
    let pathSegments := splitPath path2
    let ctx := newMatchContext m.opts.MaxBacktrackIterations
    (m.rules.foldl (matchStep path2 pathSegments isDir m.opts.CaseInsensitive)
      ({}, ctx)).1

/-- `Match` from matcher.go. -/
def Matcher.Match (m : Matcher) (path : List Nat) (isDir : Bool) : Bool :=
  (m.MatchWithReason path isDir).Ignored

/-- `RuleCount` from matcher.go. -/
def Matcher.RuleCount (m : Matcher) : Nat := m.rules.length

/-! ## Budget-free reference versions of the matching engine

The Go matcher threads a budget through every call.  With an unlimited
budget (`maxIter < 0`) every `tick` succeeds and the budget has no
influence; the following pure functions are the same algorithms with the
budget plumbing removed.  Bridge lemmas below prove them equal to the
budgeted functions whenever `ctx.maxIter < 0`. -/

/-- Budget-free counterpart of `starLoop`: try `f` on every suffix. -/
def starLoopPure {α : Type} (f : List α → Bool) : List α → Bool
  | [] => f []
  | x :: rest => if f (x :: rest) then true else starLoopPure f rest

/-- Budget-free counterpart of `mgrAux` (same branch structure, ticks
removed). -/
def pureGlobAux (fuel : Nat) (pattern s : List Nat) : Bool :=
  match fuel with
  | 0 => false
  | fuel + 1 =>
    match pattern with
    | [] => s.isEmpty
    | c :: pr =>
      if c = 42 then
        let p2 := pr.dropWhile (fun b => b = 42)
        if p2 = [] then true
        else starLoopPure (fun s2 => pureGlobAux fuel p2 s2) s
      else if c = 63 then
        match s with
        | [] => false
        | _ :: sr => pureGlobAux fuel pr sr
      else if c = 91 then
        match s with
        | [] => false
        | s0 :: sr =>
          if s0 = 47 then false
          else
            let mcc := matchCharClass (c :: pr) 0 s0
            if mcc.2.2 then
              if mcc.1 = false then false
              else pureGlobAux fuel ((c :: pr).drop mcc.2.1) sr
            else
              if s0 = c then pureGlobAux fuel pr sr else false
      else
        match pr with
        | p1 :: pr2 =>
          if c = 92 then
            match s with
            | [] => false
            | s0 :: sr => if p1 = s0 then pureGlobAux fuel pr2 sr else false
          else
            match s with
            | [] => false
            | s0 :: sr => if c = s0 then pureGlobAux fuel (p1 :: pr2) sr else false
        | [] =>
          match s with
          | [] => false
          | s0 :: sr => if c = s0 then pureGlobAux fuel [] sr else false

/-- Budget-free `matchGlobRecursive`. -/
def globRecursivePure (pattern s : List Nat) : Bool :=
  pureGlobAux (pattern.length + s.length + 1) pattern s

/-- Budget-free `matchGlob`. -/
def matchGlobPure (pattern s : List Nat) : Bool :=
  if pattern.any (fun c => c = 42 || c = 63 || c = 92 || c = 91) = false then pattern = s
  else if pattern = [42] then true
  else if pattern.contains 63 = false ∧ pattern.contains 92 = false ∧
      pattern.contains 91 = false then
    if pattern.count 42 = 1 ∧ pattern.getLast? = some 42 then
      pattern.dropLast.isPrefixOf s
    else if pattern.count 42 = 1 ∧ pattern.head? = some 42 then
      pattern.tail.isSuffixOf s
    else globRecursivePure pattern s
  else globRecursivePure pattern s

/-- Budget-free `matchSingleSegment`. -/
def singleSegmentPure (seg : segment) (pathSeg : List Nat) (ci : Bool) : Bool :=
  if seg.doubleStar then true
  else if seg.wildcard = false then
    seg.value = (if ci then pathSeg.map asciiToLower else pathSeg)
  else matchGlobPure seg.value (if ci then pathSeg.map asciiToLower else pathSeg)

/-- Budget-free `matchSegmentsExact`. -/
def exactPure (pattern : List segment) (path : List (List Nat)) (ci : Bool) : Bool :=
  match pattern with
  | [] => path.isEmpty
  | seg :: pr =>
    if seg.doubleStar then starLoopPure (fun p => exactPure pr p ci) path
    else
      match path with
      | [] => false
      | p0 :: prest =>
        if singleSegmentPure seg p0 ci = false then false
        else exactPure pr prest ci

/-- Budget-free `matchSegmentsPrefix`. -/
def prefixModePure (pattern : List segment) (path : List (List Nat)) (ci : Bool) : Bool :=
  match pattern with
  | [] => !path.isEmpty
  | seg :: pr =>
    if seg.doubleStar then starLoopPure (fun p => prefixModePure pr p ci) path
    else
      match path with
      | [] => false
      | p0 :: prest =>
        if singleSegmentPure seg p0 ci = false then false
        else prefixModePure pr prest ci

def floatLoopPure (segs : List segment) (path : List (List Nat)) (count : Nat)
    (prefixMatch ci : Bool) : Bool :=
  match count with
  | 0 => false
  | count2 + 1 =>
    let m := if prefixMatch then prefixModePure segs path ci else exactPure segs path ci
    if m then true else floatLoopPure segs path.tail count2 prefixMatch ci

def matchRulePure (r : rule) (path : List Nat) (pathSegments : List (List Nat))
    (isDir ci : Bool) : Bool :=
  let scopedSegs : Option (List (List Nat)) :=
    if r.basePath = [] then some pathSegments
    else if ¬ (r.basePath ++ [47]).isPrefixOf path ∧ path ≠ r.basePath then none
    else if path = r.basePath then some []
    else some (splitPath (path.drop (r.basePath.length + 1)))
  match scopedSegs with
  | none => false
  | some matchSegs =>
    if matchSegs = [] then decide (r.segments = [])
    else
      let prefixMatch := r.dirOnly && !isDir
      if r.anchored then
        if prefixMatch then prefixModePure r.segments matchSegs ci
        else exactPure r.segments matchSegs ci
      else
        let maxStart : Int :=
          if prefixMatch then (matchSegs.length : Int) - 1
          else (matchSegs.length : Int) - (r.segments.length : Int)
        let count : Nat := if maxStart < 0 then 0 else maxStart.toNat + 1
        if floatLoopPure r.segments matchSegs count prefixMatch ci then true
        else
          match r.segments with
          | seg0 :: _ =>
            if seg0.doubleStar then
              if prefixMatch then prefixModePure r.segments matchSegs ci
              else exactPure r.segments matchSegs ci
            else false
          | [] => false

/-! ## Last-match-wins reference (towards C1)

`lastMatchResultOf` and `specLastMatchWins` are the spec's reading of
§4.5 ("each matching Rule overwrites the running decision ... this
last-match-wins rule"): collect, in evaluation order and threading the
same shared budget, the rules whose `matchRule` call succeeded, and
report the decision of the last of them. -/

/-- The rules that match, in order, threading the shared context. -/
def matchedAux (rules : List rule) (path : List Nat) (segs : List (List Nat))
    (isDir ci : Bool) (ctx : matchContext) : List rule × matchContext :=
  match rules with
  | [] => ([], ctx)
  | r :: rest =>
    let mr := matchRule r path segs isDir ci ctx
    let res := matchedAux rest path segs isDir ci mr.2
    (if mr.1 then r :: res.1 else res.1, res.2)

/-- The `MatchResult` reported for a decisive rule. -/
def lastMatchResultOf (r : rule) : MatchResult :=
  { Rule := r.pattern, BasePath := r.basePath, Line := r.line,
    Ignored := !r.negate, Matched := true, Negated := r.negate }

/-- The spec's last-match-wins contract, as an independent reference
implementation: the decision belongs to the last rule that matched. -/
def specLastMatchWins (m : Matcher) (path : List Nat) (isDir : Bool) : MatchResult :=
  let path2 := normalizePath path
  if path2 = [] then {}
  else
    match (matchedAux m.rules path2 (splitPath path2) isDir m.opts.CaseInsensitive
        (newMatchContext m.opts.MaxBacktrackIterations)).1.getLast? with
    | none => {}
    | some r => lastMatchResultOf r

/-! ## Concrete matchers for the claims' worked examples -/

/-- C1: the three root-scope rules of the last-match-wins example. -/
def mLastMatch : Matcher :=
  (Matcher.New.AddPatterns [] (bytes "*.log\n!important.log\nimportant.log")).1

/-- C2: the adversarial double-star pattern with a 1000-iteration ceiling
(the ceiling used by the repository's own backtrack-limit test). -/
def mBudget : Matcher :=
  ((Matcher.NewWithOptions
    { MaxBacktrackIterations := 1000, CaseInsensitive := false }).AddPatterns
    [] (bytes "a/**/b/**/c/**/d")).1

/-- C3: a case-insensitive matcher loaded with upper-case patterns
(the input of the repository's TestMatch_CaseInsensitive). -/
def mCaseUpper : Matcher :=
  ((Matcher.NewWithOptions
    { MaxBacktrackIterations := 0, CaseInsensitive := true }).AddPatterns
    [] (bytes "BUILD/\n*.LOG\n")).1

/-- C3 control: the same matcher with lower-case patterns. -/
def mCaseLower : Matcher :=
  ((Matcher.NewWithOptions
    { MaxBacktrackIterations := 0, CaseInsensitive := true }).AddPatterns
    [] (bytes "build/\n*.log\n")).1

/-- C4: a single directory-only rule. -/
def mBuildDir : Matcher := (Matcher.New.AddPatterns [] (bytes "build/")).1

/-- C5: a rule added under scope "src". -/
def mScoped : Matcher := (Matcher.New.AddPatterns (bytes "src") (bytes "*.tmp")).1

/-- C6: a double-star rule between literals. -/
def mDoubleStar : Matcher := (Matcher.New.AddPatterns [] (bytes "a/**/b")).1

/-- C6: a leading double-star rule. -/
def mLeadingStar : Matcher := (Matcher.New.AddPatterns [] (bytes "**/x")).1

/-- C8: a character-range rule. -/
def mRange : Matcher := (Matcher.New.AddPatterns [] (bytes "[a-c].txt")).1

/-- C8: a negated character-class rule. -/
def mNegClass : Matcher := (Matcher.New.AddPatterns [] (bytes "[!abc]")).1

/-- The rule produced by parsing `[!abc]` at root scope (the agreement
with `parseLines` is part of the C8 development below). -/
def ruleNotABC : rule :=
  { pattern := bytes "[!abc]", basePath := [],
    segments := [{ value := bytes "[!abc]", wildcard := true, doubleStar := false }],
    line := 1, negate := false, dirOnly := false, anchored := false }

/-- C8: a caret-negated character-class rule. -/
def mCaretClass : Matcher := (Matcher.New.AddPatterns [] (bytes "[^abc]")).1

/-- An anchored directory-only rule (`/build/`), used to witness the
dirOnly-dispatch clause of C4. -/
def ruleBuildAnch : rule :=
  { pattern := bytes "/build/", basePath := [],
    segments := [{ value := bytes "build", wildcard := false, doubleStar := false }],
    line := 1, negate := false, dirOnly := true, anchored := true }

/-- The unanchored leading-double-star rule (`**/x`), used to witness C6. -/
def ruleStarX : rule :=
  { pattern := bytes "**/x", basePath := [],
    segments := [{ value := [], wildcard := false, doubleStar := true },
                 { value := bytes "x", wildcard := false, doubleStar := false }],
    line := 1, negate := false, dirOnly := false, anchored := false }

/-! ## Idempotence of path normalization (towards C7) -/

/-- `strings.HasPrefix(l, [a,b])` as a Bool on the first two bytes. -/
def startsWith2 (a b : Nat) : List Nat → Bool
  | x :: y :: _ => x = a && y = b
  | _ => false

theorem replaceByte_no_src (a b : Nat) (hab : b ≠ a) (l : List Nat) :
    ∀ x ∈ replaceByte a b l, x ≠ a := by
  intro x hx
  simp only [replaceByte, List.mem_map] at hx
  obtain ⟨c, _, hc⟩ := hx
  by_cases h : c = a <;> simp [h] at hc <;> omega

theorem replaceByte_id (a b : Nat) (l : List Nat) (h : ∀ x ∈ l, x ≠ a) :
    replaceByte a b l = l := by
  induction l with
  | nil => rfl
  | cons c rest ih =>
    have hc : c ≠ a := h c (by simp)
    simp only [replaceByte, List.map_cons, if_neg hc]
    have := ih (fun x hx => h x (by simp [hx]))
    simpa [replaceByte] using this

theorem collapseAux_true_head (l : List Nat) :
    (collapseAux true l).head? ≠ some 47 := by
  induction l with
  | nil => simp [collapseAux]
  | cons c rest ih =>
    by_cases hc : c = 47
    · simpa [collapseAux, hc] using ih
    · simp [collapseAux, hc]

theorem hasDoubleSlash_cons (c : Nat) (l : List Nat) (hc : l.head? ≠ some 47 ∨ c ≠ 47)
    (hl : hasDoubleSlash l = false) : hasDoubleSlash (c :: l) = false := by
  cases l with
  | nil => rfl
  | cons c2 rest =>
    have hc2 : ¬ (c = 47 ∧ c2 = 47) := by
      rintro ⟨rfl, rfl⟩
      rcases hc with h | h
      · exact h (by simp)
      · exact h rfl
    simp only [hasDoubleSlash, hl, Bool.or_false]
    rcases Decidable.not_and_iff_or_not.mp hc2 with h | h <;> simp [h]

theorem collapseAux_cons_slash_false (rest : List Nat) :
    collapseAux false (47 :: rest) = 47 :: collapseAux true rest := by
  simp [collapseAux]

theorem collapseAux_cons_slash_true (rest : List Nat) :
    collapseAux true (47 :: rest) = collapseAux true rest := by
  simp [collapseAux]

theorem collapseAux_cons_other (b : Bool) (c : Nat) (rest : List Nat) (hc : c ≠ 47) :
    collapseAux b (c :: rest) = c :: collapseAux false rest := by
  simp [collapseAux, hc]

theorem hasDoubleSlash_collapseAux (l : List Nat) :
    ∀ b, hasDoubleSlash (collapseAux b l) = false := by
  induction l with
  | nil => intro b; rfl
  | cons c rest ih =>
    intro b
    by_cases hc : c = 47
    · subst hc
      cases b with
      | true => rw [collapseAux_cons_slash_true]; exact ih true
      | false =>
        rw [collapseAux_cons_slash_false]
        exact hasDoubleSlash_cons 47 _ (Or.inl (collapseAux_true_head rest)) (ih true)
    · rw [collapseAux_cons_other b c rest hc]
      exact hasDoubleSlash_cons c _ (Or.inr hc) (ih false)

theorem collapseAux_mem (l : List Nat) :
    ∀ b, ∀ x ∈ collapseAux b l, x = 47 ∨ x ∈ l := by
  induction l with
  | nil => intro b x hx; simp [collapseAux] at hx
  | cons c rest ih =>
    intro b x hx
    by_cases hc : c = 47
    · subst hc
      cases b with
      | true =>
        rw [collapseAux_cons_slash_true] at hx
        rcases ih true x hx with h | h
        · exact Or.inl h
        · exact Or.inr (by simp [h])
      | false =>
        rw [collapseAux_cons_slash_false] at hx
        rcases List.mem_cons.mp hx with h | h
        · exact Or.inl h
        · rcases ih true x h with h2 | h2
          · exact Or.inl h2
          · exact Or.inr (by simp [h2])
    · rw [collapseAux_cons_other b c rest hc] at hx
      rcases List.mem_cons.mp hx with h | h
      · exact Or.inr (by simp [h])
      · rcases ih false x h with h2 | h2
        · exact Or.inl h2
        · exact Or.inr (by simp [h2])

theorem collapseStep_hasDoubleSlash (l : List Nat) :
    hasDoubleSlash (collapseStep l) = false := by
  unfold collapseStep
  split
  · exact hasDoubleSlash_collapseAux l false
  · rename_i h; simpa using h

theorem collapseStep_mem (l : List Nat) : ∀ x ∈ collapseStep l, x = 47 ∨ x ∈ l := by
  unfold collapseStep
  split
  · exact collapseAux_mem l false
  · intro x hx; exact Or.inr hx

theorem collapseStep_id (l : List Nat) (h : hasDoubleSlash l = false) :
    collapseStep l = l := by
  unfold collapseStep
  rw [h]
  simp

theorem stripDotSlashes_cons_dot_slash (rest : List Nat) :
    stripDotSlashes (46 :: 47 :: rest) = stripDotSlashes rest := by
  simp [stripDotSlashes]

theorem stripDotSlashes_sound (l : List Nat) :
    startsWith2 46 47 (stripDotSlashes l) = false ∧
      (∀ x ∈ stripDotSlashes l, x ∈ l) := by
  induction l using stripDotSlashes.induct with
  | case1 a b rest hab ih =>
    obtain ⟨rfl, rfl⟩ := hab
    rw [stripDotSlashes_cons_dot_slash]
    exact ⟨ih.1, fun x hx => by simp [ih.2 x hx]⟩
  | case2 a b rest hab =>
    rw [show stripDotSlashes (a :: b :: rest) = a :: b :: rest by
      simp [stripDotSlashes, hab]]
    constructor
    · simp only [startsWith2]
      rcases Decidable.not_and_iff_or_not.mp hab with h | h <;> simp [h]
    · intro x hx; exact hx
  | case3 l h =>
    have hl : stripDotSlashes l = l := by
      cases l with
      | nil => rfl
      | cons x rest =>
        cases rest with
        | nil => rfl
        | cons y r => exact absurd rfl (h x y r)
    rw [hl]
    refine ⟨?_, fun x hx => hx⟩
    cases l with
    | nil => rfl
    | cons x rest =>
      cases rest with
      | nil => rfl
      | cons y r => exact absurd rfl (h x y r)

theorem stripDotSlashes_id (l : List Nat) (h : startsWith2 46 47 l = false) :
    stripDotSlashes l = l := by
  cases l with
  | nil => rfl
  | cons a rest =>
    cases rest with
    | nil => rfl
    | cons b r =>
      simp only [startsWith2, Bool.and_eq_false_iff] at h
      have : ¬ (a = 46 ∧ b = 47) := by
        rintro ⟨rfl, rfl⟩
        rcases h with h | h <;> simp at h
      simp [stripDotSlashes, this]

theorem hasDoubleSlash_stripDotSlashes (l : List Nat) (h : hasDoubleSlash l = false) :
    hasDoubleSlash (stripDotSlashes l) = false := by
  induction l using stripDotSlashes.induct with
  | case1 a b rest hab ih =>
    obtain ⟨rfl, rfl⟩ := hab
    rw [stripDotSlashes_cons_dot_slash]
    apply ih
    cases rest with
    | nil => rfl
    | cons c r =>
      simp only [hasDoubleSlash, Bool.or_eq_false_iff] at h
      exact h.2.2
  | case2 a b rest hab =>
    rw [show stripDotSlashes (a :: b :: rest) = a :: b :: rest by
      simp [stripDotSlashes, hab]]
    exact h
  | case3 l hl =>
    have h2 : stripDotSlashes l = l := by
      cases l with
      | nil => rfl
      | cons x rest =>
        cases rest with
        | nil => rfl
        | cons y r => exact absurd rfl (hl x y r)
    rw [h2]; exact h

theorem hasDoubleSlash_dropLast (l : List Nat) (h : hasDoubleSlash l = false) :
    hasDoubleSlash l.dropLast = false := by
  induction l with
  | nil => rfl
  | cons a rest ih =>
    cases rest with
    | nil => rfl
    | cons b r =>
      rw [List.dropLast_cons₂]
      simp only [hasDoubleSlash, Bool.or_eq_false_iff, Bool.and_eq_false_iff] at h
      have hbr : hasDoubleSlash (b :: r).dropLast = false := ih h.2
      apply hasDoubleSlash_cons a _ _ hbr
      cases r with
      | nil => left; simp
      | cons c r2 =>
        rw [List.dropLast_cons₂]
        simp only [List.head?_cons]
        rcases h.1 with h1 | h1
        · right; intro hc; rw [hc] at h1; simp at h1
        · left; intro hb
          have : b = 47 := by simpa using hb
          rw [this] at h1; simp at h1

theorem getLast_pair_hasDoubleSlash (l : List Nat)
    (h1 : l.getLast? = some 47) (h2 : l.dropLast.getLast? = some 47) :
    hasDoubleSlash l = true := by
  induction l with
  | nil => simp at h1
  | cons a rest ih =>
    cases rest with
    | nil => simp at h2
    | cons b r =>
      rw [List.getLast?_cons_cons] at h1
      rw [List.dropLast_cons₂] at h2
      cases r with
      | nil =>
        -- l = [a, b]; dropLast = [a]
        simp only [List.dropLast_single] at h2
        have ha : a = 47 := by simpa using h2
        have hb : b = 47 := by simpa using h1
        subst ha; subst hb
        rfl
      | cons c r2 =>
        have hne : (b :: c :: r2).dropLast ≠ [] := by
          rw [List.dropLast_cons₂]; simp
        have h2' : (b :: c :: r2).dropLast.getLast? = some 47 := by
          cases hd : (b :: c :: r2).dropLast with
          | nil => exact absurd hd hne
          | cons x xs =>
            rw [hd] at h2
            rw [List.getLast?_cons_cons] at h2
            exact h2
        have hrec := ih h1 h2'
        have hstep : hasDoubleSlash (a :: b :: c :: r2) =
            ((decide (a = 47) && decide (b = 47)) || hasDoubleSlash (b :: c :: r2)) := rfl
        rw [hstep, hrec, Bool.or_true]

theorem trimSuffixSlash_getLast (l : List Nat) (h : hasDoubleSlash l = false) :
    (trimSuffixSlash l).getLast? ≠ some 47 := by
  unfold trimSuffixSlash
  by_cases hl : l.getLast? = some 47
  · rw [if_pos hl]
    intro h2
    have := getLast_pair_hasDoubleSlash l hl h2
    rw [this] at h; simp at h
  · rw [if_neg hl]; exact hl

theorem startsWith2_dropLast (a b : Nat) (l : List Nat)
    (h : startsWith2 a b l.dropLast = true) : startsWith2 a b l = true := by
  cases l with
  | nil => exact h
  | cons x rest =>
    cases rest with
    | nil => simp only [List.dropLast_single] at h; simp [startsWith2] at h
    | cons y r =>
      rw [List.dropLast_cons₂] at h
      cases r with
      | nil => simp only [List.dropLast_single] at h; simp [startsWith2] at h
      | cons w r2 =>
        rw [List.dropLast_cons₂] at h
        simpa [startsWith2] using h

theorem trimSuffixSlash_startsWith2 (a b : Nat) (l : List Nat)
    (h : startsWith2 a b l = false) : startsWith2 a b (trimSuffixSlash l) = false := by
  unfold trimSuffixSlash
  split
  · by_contra h2
    have := startsWith2_dropLast a b l (by simpa using h2)
    rw [this] at h; simp at h
  · exact h

theorem trimSuffixSlash_hasDoubleSlash (l : List Nat) (h : hasDoubleSlash l = false) :
    hasDoubleSlash (trimSuffixSlash l) = false := by
  unfold trimSuffixSlash
  split
  · exact hasDoubleSlash_dropLast l h
  · exact h

theorem trimSuffixSlash_id (l : List Nat) (h : l.getLast? ≠ some 47) :
    trimSuffixSlash l = l := by
  unfold trimSuffixSlash
  rw [if_neg h]

theorem trimSuffixSlash_mem (l : List Nat) : ∀ x ∈ trimSuffixSlash l, x ∈ l := by
  unfold trimSuffixSlash
  split
  · intro x hx; exact List.dropLast_subset l hx
  · intro x hx; exact hx

/-- Path normalization is idempotent, for either platform flavor. -/
theorem normalizePathW_idem (w : Bool) (p : List Nat) :
    normalizePathW w (normalizePathW w p) = normalizePathW w p := by
  have expand : normalizePathW w p =
      trimSuffixSlash (stripDotSlashes (collapseStep (if w then replaceByte 92 47 p else p))) :=
    rfl
  set p1 := if w then replaceByte 92 47 p else p with hp1
  set p2 := collapseStep p1 with hp2
  set p3 := stripDotSlashes p2 with hp3
  set q := trimSuffixSlash p3 with hq
  -- invariants of the first pass
  have hds2 : hasDoubleSlash p2 = false := collapseStep_hasDoubleSlash p1
  have hds3 : hasDoubleSlash p3 = false := hasDoubleSlash_stripDotSlashes p2 hds2
  have hdsq : hasDoubleSlash q = false := trimSuffixSlash_hasDoubleSlash p3 hds3
  have hsw3 : startsWith2 46 47 p3 = false := (stripDotSlashes_sound p2).1
  have hswq : startsWith2 46 47 q = false := trimSuffixSlash_startsWith2 46 47 p3 hsw3
  have hlastq : q.getLast? ≠ some 47 := trimSuffixSlash_getLast p3 hds3
  have hno92 : w = true → ∀ x ∈ q, x ≠ 92 := by
    intro hw x hxq
    have hx3 : x ∈ p3 := trimSuffixSlash_mem p3 x hxq
    have hx2 : x ∈ p2 := (stripDotSlashes_sound p2).2 x hx3
    have hx1 : x = 47 ∨ x ∈ p1 := collapseStep_mem p1 x hx2
    have h1 : ∀ y ∈ p1, y ≠ 92 := by
      rw [hp1, if_pos hw]
      exact replaceByte_no_src 92 47 (by omega) p
    rcases hx1 with rfl | hx1
    · omega
    · exact h1 x hx1
  -- second pass collapses to the identity
  show normalizePathW w q = q
  have s1 : (if w then replaceByte 92 47 q else q) = q := by
    cases w with
    | false => rfl
    | true => simp only [if_true]; exact replaceByte_id 92 47 q (hno92 rfl)
  unfold normalizePathW
  rw [s1, collapseStep_id q hdsq, stripDotSlashes_id q hswq, trimSuffixSlash_id q hlastq]


/-! ## Idempotence of content normalization (towards C7) -/

/-- Does the byte list start with the UTF-8 BOM `EF BB BF`? -/
def startsBOM : List Nat → Bool
  | a :: b :: c :: _ => a = 0xEF && b = 0xBB && c = 0xBF
  | _ => false

theorem startsBOM_cons (a : Nat) (u : List Nat) (ha : a ≠ 0xEF) :
    startsBOM (a :: u) = false := by
  match u with
  | [] => rfl
  | [x] => rfl
  | x :: y :: r => simp [startsBOM, ha]

theorem stripBOMs_not_startsBOM (l : List Nat) : startsBOM (stripBOMs l) = false := by
  induction l using stripBOMs.induct with
  | case1 a b c rest h ih =>
    rw [show stripBOMs (a :: b :: c :: rest) = stripBOMs rest by simp [stripBOMs, h]]
    exact ih
  | case2 a b c rest h =>
    rw [show stripBOMs (a :: b :: c :: rest) = a :: b :: c :: rest by simp [stripBOMs, h]]
    simp only [startsBOM]
    rcases Decidable.not_and_iff_or_not.mp h with h1 | h1
    · simp [h1]
    · rcases Decidable.not_and_iff_or_not.mp h1 with h2 | h2 <;> simp [h2]
  | case3 l hl =>
    have : stripBOMs l = l := by
      cases l with
      | nil => rfl
      | cons a r1 =>
        cases r1 with
        | nil => rfl
        | cons b r2 =>
          cases r2 with
          | nil => rfl
          | cons c r3 => exact absurd rfl (hl a b c r3)
    rw [this]
    cases l with
    | nil => rfl
    | cons a r1 =>
      cases r1 with
      | nil => rfl
      | cons b r2 =>
        cases r2 with
        | nil => rfl
        | cons c r3 => exact absurd rfl (hl a b c r3)

theorem stripBOMs_id (l : List Nat) (h : startsBOM l = false) : stripBOMs l = l := by
  cases l with
  | nil => rfl
  | cons a r1 =>
    cases r1 with
    | nil => rfl
    | cons b r2 =>
      cases r2 with
      | nil => rfl
      | cons c r3 =>
        simp only [startsBOM, Bool.and_eq_false_iff] at h
        have : ¬ (a = 0xEF ∧ b = 0xBB ∧ c = 0xBF) := by
          rintro ⟨rfl, rfl, rfl⟩
          rcases h with (h1 | h1) | h1 <;> simp at h1
        simp [stripBOMs, this]

theorem replaceCR_no13 (l : List Nat) : ∀ x ∈ replaceCR l, x ≠ 13 :=
  replaceByte_no_src 13 10 (by omega) l

theorem replaceCR_id (l : List Nat) (h : ∀ x ∈ l, x ≠ 13) : replaceCR l = l :=
  replaceByte_id 13 10 l h

theorem replaceCRLF_id (l : List Nat) (h : ∀ x ∈ l, x ≠ 13) : replaceCRLF l = l := by
  induction l using replaceCRLF.induct with
  | case1 => rfl
  | case2 c => rfl
  | case3 a b rest hab ih =>
    exact absurd (hab.1) (h a (by simp))
  | case4 a b rest hab ih =>
    rw [show replaceCRLF (a :: b :: rest) = a :: replaceCRLF (b :: rest) by
      simp [replaceCRLF, hab]]
    rw [ih (fun x hx => h x (by simp at hx ⊢; tauto))]

theorem startsBOM_replaceCR (t : List Nat) : startsBOM (replaceCR t) = startsBOM t := by
  match t with
  | [] => rfl
  | [a] => rfl
  | [a, b] => rfl
  | a :: b :: c :: r =>
    show startsBOM ((if a = 13 then 10 else a) :: (if b = 13 then 10 else b) ::
      (if c = 13 then 10 else c) :: replaceCR r) = startsBOM (a :: b :: c :: r)
    by_cases ha : a = 13 <;> by_cases hb : b = 13 <;> by_cases hc : c = 13 <;>
      simp [startsBOM, ha, hb, hc]

theorem startsBOM_replaceCRLF (s : List Nat) (h : startsBOM (replaceCRLF s) = true) :
    startsBOM s = true := by
  match s with
  | [] => simp [replaceCRLF, startsBOM] at h
  | [a] => simp [replaceCRLF, startsBOM] at h
  | [a, b] =>
    by_cases hab : a = 13 ∧ b = 10
    · rw [show replaceCRLF [a, b] = [10] by simp [replaceCRLF, hab]] at h
      simp [startsBOM] at h
    · rw [show replaceCRLF [a, b] = [a, b] by simp [replaceCRLF, hab]] at h
      simp [startsBOM] at h
  | a :: b :: c :: rest =>
    by_cases hab : a = 13 ∧ b = 10
    · rw [show replaceCRLF (a :: b :: c :: rest) = 10 :: replaceCRLF (c :: rest) by
        simp [replaceCRLF, hab]] at h
      rw [startsBOM_cons 10 _ (by omega)] at h
      simp at h
    · rw [show replaceCRLF (a :: b :: c :: rest) = a :: replaceCRLF (b :: c :: rest) by
        simp [replaceCRLF, hab]] at h
      by_cases hbc : b = 13 ∧ c = 10
      · rw [show replaceCRLF (b :: c :: rest) = 10 :: replaceCRLF rest by
          simp [replaceCRLF, hbc]] at h
        cases hu : replaceCRLF rest with
        | nil => rw [hu] at h; simp [startsBOM] at h
        | cons v w => rw [hu] at h; simp [startsBOM] at h
      · rw [show replaceCRLF (b :: c :: rest) = b :: replaceCRLF (c :: rest) by
          simp [replaceCRLF, hbc]] at h
        cases rest with
        | nil =>
          rw [show replaceCRLF [c] = [c] from rfl] at h
          simp [startsBOM] at h ⊢
          exact h
        | cons d r2 =>
          by_cases hcd : c = 13 ∧ d = 10
          · rw [show replaceCRLF (c :: d :: r2) = 10 :: replaceCRLF r2 by
              simp [replaceCRLF, hcd]] at h
            simp [startsBOM] at h
          · rw [show replaceCRLF (c :: d :: r2) = c :: replaceCRLF (d :: r2) by
              simp [replaceCRLF, hcd]] at h
            simp [startsBOM] at h ⊢
            exact h

/-- Content normalization is idempotent. -/
theorem normalizeContent_idem (c : List Nat) :
    normalizeContent (normalizeContent c) = normalizeContent c := by
  unfold normalizeContent
  by_cases hc : c = []
  · simp [hc]
  · rw [if_neg hc]
    by_cases hq0 : replaceCR (replaceCRLF (stripBOMs c)) = []
    · rw [if_pos hq0]
    · rw [if_neg hq0]
      set q := replaceCR (replaceCRLF (stripBOMs c)) with hq
      have h13 : ∀ x ∈ q, x ≠ 13 := replaceCR_no13 _
      have hbom : startsBOM q = false := by
        by_contra hbt
        have h1 : startsBOM q = true := by simpa using hbt
        rw [hq, startsBOM_replaceCR] at h1
        have h2 := startsBOM_replaceCRLF _ h1
        rw [stripBOMs_not_startsBOM c] at h2
        simp at h2
      rw [stripBOMs_id q hbom, replaceCRLF_id q h13, replaceCR_id q h13]


/-! ## Budget lemmas (towards C2) -/

theorem tick_maxIter (ctx : matchContext) : (tick ctx).2.maxIter = ctx.maxIter := by
  unfold tick
  split <;> rfl

theorem tick_exhausted (ctx : matchContext) (h0 : 0 ≤ ctx.maxIter)
    (h1 : ctx.maxIter ≤ (ctx.iterations : Int)) : (tick ctx).1 = false := by
  unfold tick
  rw [if_neg (by omega)]
  simp only [decide_eq_false_iff_not, not_le]
  omega

theorem tick_unlimited (ctx : matchContext) (h : ctx.maxIter < 0) : (tick ctx).1 = true := by
  unfold tick
  rw [if_pos h]

theorem tick_unlimited_after (ctx : matchContext) (h : ctx.maxIter < 0) :
    (tick ctx).2.maxIter < 0 := by
  rw [tick_maxIter]; exact h

/-- Once the counter has passed a non-negative ceiling, `matchSegmentsExact`
fails immediately. -/
theorem matchSegmentsExact_exhausted (pattern : List segment) (path : List (List Nat))
    (ctx : matchContext) (ci : Bool) (h0 : 0 ≤ ctx.maxIter)
    (h1 : ctx.maxIter ≤ (ctx.iterations : Int)) :
    (matchSegmentsExact pattern path ctx ci).1 = false := by
  unfold matchSegmentsExact
  simp [tick_exhausted ctx h0 h1]

/-- Once the counter has passed a non-negative ceiling, `matchSegmentsPrefix`
fails immediately. -/
theorem matchSegmentsPrefixMode_exhausted (pattern : List segment) (path : List (List Nat))
    (ctx : matchContext) (ci : Bool) (h0 : 0 ≤ ctx.maxIter)
    (h1 : ctx.maxIter ≤ (ctx.iterations : Int)) :
    (matchSegmentsPrefixMode pattern path ctx ci).1 = false := by
  unfold matchSegmentsPrefixMode
  simp [tick_exhausted ctx h0 h1]

/-- Once the counter has passed a non-negative ceiling, `matchRule` fails
immediately. -/
theorem matchRule_exhausted (r : rule) (path : List Nat) (segs : List (List Nat))
    (isDir ci : Bool) (ctx : matchContext) (h0 : 0 ≤ ctx.maxIter)
    (h1 : ctx.maxIter ≤ (ctx.iterations : Int)) :
    (matchRule r path segs isDir ci ctx).1 = false := by
  unfold matchRule
  simp [tick_exhausted ctx h0 h1]

/-- Once the counter has passed a non-negative ceiling, `matchGlobRecursive`
fails immediately on any nonempty pattern (an empty pattern performs a
plain emptiness test without consulting the budget, and is never passed a
nonempty pattern's budget-exhausted state at top level). -/
theorem matchGlobRecursive_exhausted (c : Nat) (pr s : List Nat)
    (ctx : matchContext) (h0 : 0 ≤ ctx.maxIter)
    (h1 : ctx.maxIter ≤ (ctx.iterations : Int)) :
    (matchGlobRecursive (c :: pr) s ctx).1 = false := by
  unfold matchGlobRecursive
  rw [show (c :: pr).length + s.length + 1 = (pr.length + s.length + 1) + 1 by simp; omega]
  unfold mgrAux
  simp [tick_exhausted ctx h0 h1]


/-! ## Bridge lemmas: with an unlimited budget the engine equals its
budget-free reference version -/

theorem starLoop_bridge {α : Type} (f : List α → matchContext → Bool × matchContext)
    (g : List α → Bool)
    (hf : ∀ xs ctx, ctx.maxIter < 0 →
      (f xs ctx).1 = g xs ∧ (f xs ctx).2.maxIter = ctx.maxIter) :
    ∀ (path : List α) (ctx : matchContext), ctx.maxIter < 0 →
      (starLoop f path ctx).1 = starLoopPure g path ∧
      (starLoop f path ctx).2.maxIter = ctx.maxIter := by
  intro path
  induction path with
  | nil =>
    intro ctx hctx
    obtain ⟨h1, h2⟩ := hf [] ctx hctx
    unfold starLoop starLoopPure
    by_cases hr : (f [] ctx).1 = true
    · have hg : g [] = true := by rw [← h1]; exact hr
      simp only [hr, if_true]
      exact ⟨hg.symm, h2⟩
    · rw [Bool.not_eq_true] at hr
      have hg : g [] = false := by rw [← h1]; exact hr
      have ht := tick_unlimited (f [] ctx).2 (h2 ▸ hctx)
      simp only [hr, hg, Bool.false_eq_true, if_false, ht, Bool.true_eq_false]
      exact ⟨by trivial, by rw [tick_maxIter, h2]⟩
  | cons x rest ih =>
    intro ctx hctx
    obtain ⟨h1, h2⟩ := hf (x :: rest) ctx hctx
    unfold starLoop starLoopPure
    by_cases hr : (f (x :: rest) ctx).1 = true
    · have hg : g (x :: rest) = true := by rw [← h1]; exact hr
      simp only [hr, hg, if_true]
      exact ⟨by trivial, h2⟩
    · rw [Bool.not_eq_true] at hr
      have hg : g (x :: rest) = false := by rw [← h1]; exact hr
      have ht := tick_unlimited (f (x :: rest) ctx).2 (h2 ▸ hctx)
      have htm2 : (tick (f (x :: rest) ctx).2).2.maxIter < 0 := by
        rw [tick_maxIter, h2]; exact hctx
      obtain ⟨ih1, ih2⟩ := ih _ htm2
      simp only [hr, hg, Bool.false_eq_true, if_false, ht, Bool.true_eq_false]
      exact ⟨ih1, by rw [ih2, tick_maxIter, h2]⟩

theorem mgrAux_bridge (fuel : Nat) :
    ∀ (p s : List Nat) (ctx : matchContext), ctx.maxIter < 0 →
      (mgrAux fuel p s ctx).1 = pureGlobAux fuel p s ∧
      (mgrAux fuel p s ctx).2.maxIter = ctx.maxIter := by
  induction fuel with
  | zero => intro p s ctx hctx; exact ⟨rfl, rfl⟩
  | succ fuel ih =>
    intro p s ctx hctx
    match p with
    | [] => exact ⟨rfl, rfl⟩
    | c :: pr =>
      have ht : (tick ctx).1 = true := tick_unlimited ctx hctx
      have htm : (tick ctx).2.maxIter = ctx.maxIter := tick_maxIter ctx
      have htm2 : (tick ctx).2.maxIter < 0 := by rw [htm]; exact hctx
      unfold mgrAux pureGlobAux
      simp only [ht, Bool.true_eq_false, if_false]
      by_cases hc42 : c = 42
      · simp only [if_pos hc42]
        by_cases hp2 : pr.dropWhile (fun b => b = 42) = []
        · simp only [if_pos hp2]
          exact ⟨by trivial, htm⟩
        · simp only [if_neg hp2]
          exact (starLoop_bridge _ _ (fun xs ctx2 h2 => ih _ xs ctx2 h2) s (tick ctx).2
            htm2).imp id (fun h => by rw [h, htm])
      · simp only [if_neg hc42]
        by_cases hc63 : c = 63
        · simp only [if_pos hc63]
          match s with
          | [] => exact ⟨by trivial, htm⟩
          | s0 :: sr =>
            obtain ⟨r1, r2⟩ := ih pr sr (tick ctx).2 htm2
            exact ⟨r1, by rw [r2, htm]⟩
        · simp only [if_neg hc63]
          by_cases hc91 : c = 91
          · simp only [if_pos hc91]
            match s with
            | [] => exact ⟨by trivial, htm⟩
            | s0 :: sr =>
              by_cases hs47 : s0 = 47
              · simp only [if_pos hs47]
                exact ⟨by trivial, htm⟩
              · simp only [if_neg hs47]
                by_cases hv : (matchCharClass (c :: pr) 0 s0).2.2 = true
                · simp only [hv, if_true]
                  by_cases hm : (matchCharClass (c :: pr) 0 s0).1 = false
                  · simp only [if_pos hm]
                    exact ⟨by trivial, htm⟩
                  · simp only [if_neg hm]
                    obtain ⟨r1, r2⟩ := ih ((c :: pr).drop (matchCharClass (c :: pr) 0 s0).2.1)
                      sr (tick ctx).2 htm2
                    exact ⟨r1, by rw [r2, htm]⟩
                · rw [Bool.not_eq_true] at hv
                  simp only [hv, Bool.false_eq_true, if_false]
                  by_cases hsc : s0 = c
                  · simp only [if_pos hsc]
                    obtain ⟨r1, r2⟩ := ih pr sr (tick ctx).2 htm2
                    exact ⟨r1, by rw [r2, htm]⟩
                  · simp only [if_neg hsc]
                    exact ⟨by trivial, htm⟩
          · simp only [if_neg hc91]
            match pr with
            | p1 :: pr2 =>
              by_cases hc92 : c = 92
              · simp only [if_pos hc92]
                match s with
                | [] => exact ⟨by trivial, htm⟩
                | s0 :: sr =>
                  by_cases hps : p1 = s0
                  · simp only [if_pos hps]
                    obtain ⟨r1, r2⟩ := ih pr2 sr (tick ctx).2 htm2
                    exact ⟨r1, by rw [r2, htm]⟩
                  · simp only [if_neg hps]
                    exact ⟨by trivial, htm⟩
              · simp only [if_neg hc92]
                match s with
                | [] => exact ⟨by trivial, htm⟩
                | s0 :: sr =>
                  by_cases hcs : c = s0
                  · simp only [if_pos hcs]
                    obtain ⟨r1, r2⟩ := ih (p1 :: pr2) sr (tick ctx).2 htm2
                    exact ⟨r1, by rw [r2, htm]⟩
                  · simp only [if_neg hcs]
                    exact ⟨by trivial, htm⟩
            | [] =>
              match s with
              | [] => exact ⟨by trivial, htm⟩
              | s0 :: sr =>
                by_cases hcs : c = s0
                · simp only [if_pos hcs]
                  obtain ⟨r1, r2⟩ := ih [] sr (tick ctx).2 htm2
                  exact ⟨r1, by rw [r2, htm]⟩
                · simp only [if_neg hcs]
                  exact ⟨by trivial, htm⟩

theorem matchGlobRecursive_bridge (p s : List Nat) (ctx : matchContext)
    (hctx : ctx.maxIter < 0) :
    (matchGlobRecursive p s ctx).1 = globRecursivePure p s ∧
    (matchGlobRecursive p s ctx).2.maxIter = ctx.maxIter :=
  mgrAux_bridge (p.length + s.length + 1) p s ctx hctx

theorem matchGlob_bridge (p s : List Nat) (ctx : matchContext) (hctx : ctx.maxIter < 0) :
    (matchGlob p s ctx).1 = matchGlobPure p s ∧
    (matchGlob p s ctx).2.maxIter = ctx.maxIter := by
  unfold matchGlob matchGlobPure
  by_cases h1 : (p.any fun c => decide (c = 42) || decide (c = 63) || decide (c = 92) ||
      decide (c = 91)) = false
  · simp only [if_pos h1]; exact ⟨by trivial, by trivial⟩
  · simp only [if_neg h1]
    by_cases h2 : p = [42]
    · simp only [if_pos h2]; exact ⟨by trivial, by trivial⟩
    · simp only [if_neg h2]
      by_cases h3 : p.contains 63 = false ∧ p.contains 92 = false ∧ p.contains 91 = false
      · simp only [if_pos h3]
        by_cases h4 : p.count 42 = 1 ∧ p.getLast? = some 42
        · simp only [if_pos h4]; exact ⟨by trivial, by trivial⟩
        · simp only [if_neg h4]
          by_cases h5 : p.count 42 = 1 ∧ p.head? = some 42
          · simp only [if_pos h5]; exact ⟨by trivial, by trivial⟩
          · simp only [if_neg h5]
            exact matchGlobRecursive_bridge p s ctx hctx
      · simp only [if_neg h3]
        exact matchGlobRecursive_bridge p s ctx hctx

theorem matchSingleSegment_bridge (seg : segment) (pathSeg : List Nat) (ci : Bool)
    (ctx : matchContext) (hctx : ctx.maxIter < 0) :
    (matchSingleSegment seg pathSeg ci ctx).1 = singleSegmentPure seg pathSeg ci ∧
    (matchSingleSegment seg pathSeg ci ctx).2.maxIter = ctx.maxIter := by
  unfold matchSingleSegment singleSegmentPure
  by_cases h1 : seg.doubleStar = true
  · simp only [h1, if_true]; exact ⟨by trivial, by trivial⟩
  · rw [Bool.not_eq_true] at h1
    simp only [h1, Bool.false_eq_true, if_false]
    by_cases h2 : seg.wildcard = false
    · simp only [if_pos h2]; exact ⟨by trivial, by trivial⟩
    · simp only [if_neg h2]
      exact matchGlob_bridge _ _ ctx hctx

theorem matchSegmentsExact_bridge (pattern : List segment) :
    ∀ (path : List (List Nat)) (ctx : matchContext) (ci : Bool), ctx.maxIter < 0 →
      (matchSegmentsExact pattern path ctx ci).1 = exactPure pattern path ci ∧
      (matchSegmentsExact pattern path ctx ci).2.maxIter = ctx.maxIter := by
  induction pattern with
  | nil =>
    intro path ctx ci hctx
    unfold matchSegmentsExact exactPure
    simp only [tick_unlimited ctx hctx, Bool.true_eq_false, if_false]
    exact ⟨by trivial, tick_maxIter ctx⟩
  | cons seg pr ih =>
    intro path ctx ci hctx
    have ht : (tick ctx).1 = true := tick_unlimited ctx hctx
    have htm : (tick ctx).2.maxIter = ctx.maxIter := tick_maxIter ctx
    have htm2 : (tick ctx).2.maxIter < 0 := by rw [htm]; exact hctx
    unfold matchSegmentsExact exactPure
    simp only [ht, Bool.true_eq_false, if_false]
    by_cases hds : seg.doubleStar = true
    · simp only [hds, if_true]
      exact (starLoop_bridge _ _ (fun xs ctx2 h2 => ih xs ctx2 ci h2) path (tick ctx).2
        htm2).imp id (fun h => by rw [h, htm])
    · rw [Bool.not_eq_true] at hds
      simp only [hds, Bool.false_eq_true, if_false]
      match path with
      | [] => exact ⟨by trivial, htm⟩
      | p0 :: prest =>
        obtain ⟨s1, s2⟩ := matchSingleSegment_bridge seg p0 ci (tick ctx).2 htm2
        have hmm : (matchSingleSegment seg p0 ci (tick ctx).2).2.maxIter = ctx.maxIter := by
          rw [s2, htm]
        by_cases hm : (matchSingleSegment seg p0 ci (tick ctx).2).1 = false
        · have hpure : singleSegmentPure seg p0 ci = false := by rw [← s1]; exact hm
          simp [hm, hpure, hmm]
        · have hpure : ¬ singleSegmentPure seg p0 ci = false := by rw [← s1]; exact hm
          simp only [if_neg hm, if_neg hpure]
          have hs2 : (matchSingleSegment seg p0 ci (tick ctx).2).2.maxIter < 0 := by
            rw [hmm]; exact hctx
          obtain ⟨r1, r2⟩ := ih prest (matchSingleSegment seg p0 ci (tick ctx).2).2 ci hs2
          exact ⟨r1, by rw [r2, hmm]⟩

theorem matchSegmentsPrefixMode_bridge (pattern : List segment) :
    ∀ (path : List (List Nat)) (ctx : matchContext) (ci : Bool), ctx.maxIter < 0 →
      (matchSegmentsPrefixMode pattern path ctx ci).1 = prefixModePure pattern path ci ∧
      (matchSegmentsPrefixMode pattern path ctx ci).2.maxIter = ctx.maxIter := by
  induction pattern with
  | nil =>
    intro path ctx ci hctx
    unfold matchSegmentsPrefixMode prefixModePure
    simp only [tick_unlimited ctx hctx, Bool.true_eq_false, if_false]
    exact ⟨by trivial, tick_maxIter ctx⟩
  | cons seg pr ih =>
    intro path ctx ci hctx
    have ht : (tick ctx).1 = true := tick_unlimited ctx hctx
    have htm : (tick ctx).2.maxIter = ctx.maxIter := tick_maxIter ctx
    have htm2 : (tick ctx).2.maxIter < 0 := by rw [htm]; exact hctx
    unfold matchSegmentsPrefixMode prefixModePure
    simp only [ht, Bool.true_eq_false, if_false]
    by_cases hds : seg.doubleStar = true
    · simp only [hds, if_true]
      exact (starLoop_bridge _ _ (fun xs ctx2 h2 => ih xs ctx2 ci h2) path (tick ctx).2
        htm2).imp id (fun h => by rw [h, htm])
    · rw [Bool.not_eq_true] at hds
      simp only [hds, Bool.false_eq_true, if_false]
      match path with
      | [] => exact ⟨by trivial, htm⟩
      | p0 :: prest =>
        obtain ⟨s1, s2⟩ := matchSingleSegment_bridge seg p0 ci (tick ctx).2 htm2
        have hmm : (matchSingleSegment seg p0 ci (tick ctx).2).2.maxIter = ctx.maxIter := by
          rw [s2, htm]
        by_cases hm : (matchSingleSegment seg p0 ci (tick ctx).2).1 = false
        · have hpure : singleSegmentPure seg p0 ci = false := by rw [← s1]; exact hm
          simp [hm, hpure, hmm]
        · have hpure : ¬ singleSegmentPure seg p0 ci = false := by rw [← s1]; exact hm
          simp only [if_neg hm, if_neg hpure]
          have hs2 : (matchSingleSegment seg p0 ci (tick ctx).2).2.maxIter < 0 := by
            rw [hmm]; exact hctx
          obtain ⟨r1, r2⟩ := ih prest (matchSingleSegment seg p0 ci (tick ctx).2).2 ci hs2
          exact ⟨r1, by rw [r2, hmm]⟩


theorem floatLoop_bridge (segs : List segment) (count : Nat) :
    ∀ (path : List (List Nat)) (pm ci : Bool) (ctx : matchContext), ctx.maxIter < 0 →
      (floatLoop segs path count pm ci ctx).1 =
        (if floatLoopPure segs path count pm ci then some true else none) ∧
      (floatLoop segs path count pm ci ctx).2.maxIter = ctx.maxIter := by
  induction count with
  | zero =>
    intro path pm ci ctx hctx
    exact ⟨by simp [floatLoop, floatLoopPure], rfl⟩
  | succ count ih =>
    intro path pm ci ctx hctx
    have ht : (tick ctx).1 = true := tick_unlimited ctx hctx
    have htm : (tick ctx).2.maxIter = ctx.maxIter := tick_maxIter ctx
    have htm2 : (tick ctx).2.maxIter < 0 := by rw [htm]; exact hctx
    unfold floatLoop floatLoopPure
    simp only [ht, Bool.true_eq_false, if_false]
    by_cases hpm : pm = true
    · obtain ⟨b1, b2⟩ := matchSegmentsPrefixMode_bridge segs path (tick ctx).2 ci htm2
      have hb2 : (matchSegmentsPrefixMode segs path (tick ctx).2 ci).2.maxIter < 0 := by
        rw [b2]; exact htm2
      simp only [hpm, if_true]
      by_cases hm : (matchSegmentsPrefixMode segs path (tick ctx).2 ci).1 = true
      · have hp : prefixModePure segs path ci = true := by rw [← b1]; exact hm
        simp [hm, hp, b2, htm]
      · rw [Bool.not_eq_true] at hm
        have hp : prefixModePure segs path ci = false := by rw [← b1]; exact hm
        obtain ⟨r1, r2⟩ := ih path.tail pm ci (matchSegmentsPrefixMode segs path (tick ctx).2 ci).2 hb2
        rw [hpm] at r1 r2
        simp only [hm, hp, Bool.false_eq_true, if_false]
        exact ⟨r1, by rw [r2, b2, htm]⟩
    · rw [Bool.not_eq_true] at hpm
      obtain ⟨b1, b2⟩ := matchSegmentsExact_bridge segs path (tick ctx).2 ci htm2
      have hb2 : (matchSegmentsExact segs path (tick ctx).2 ci).2.maxIter < 0 := by
        rw [b2]; exact htm2
      simp only [hpm, Bool.false_eq_true, if_false]
      by_cases hm : (matchSegmentsExact segs path (tick ctx).2 ci).1 = true
      · have hp : exactPure segs path ci = true := by rw [← b1]; exact hm
        simp [hm, hp, b2, htm]
      · rw [Bool.not_eq_true] at hm
        have hp : exactPure segs path ci = false := by rw [← b1]; exact hm
        obtain ⟨r1, r2⟩ := ih path.tail pm ci (matchSegmentsExact segs path (tick ctx).2 ci).2 hb2
        rw [hpm] at r1 r2
        simp only [hm, hp, Bool.false_eq_true, if_false]
        exact ⟨r1, by rw [r2, b2, htm]⟩

theorem matchRule_bridge (r : rule) (path : List Nat) (pathSegments : List (List Nat))
    (isDir ci : Bool) (ctx : matchContext) (hctx : ctx.maxIter < 0) :
    (matchRule r path pathSegments isDir ci ctx).1 = matchRulePure r path pathSegments isDir ci := by
  have ht : (tick ctx).1 = true := tick_unlimited ctx hctx
  have htm : (tick ctx).2.maxIter = ctx.maxIter := tick_maxIter ctx
  have htm2 : (tick ctx).2.maxIter < 0 := by rw [htm]; exact hctx
  unfold matchRule matchRulePure
  simp only [ht, Bool.true_eq_false, if_false]
  -- the scope computation is identical on both sides and budget-free
  generalize hsc : (if r.basePath = [] then some pathSegments
      else if ¬ (r.basePath ++ [47]).isPrefixOf path ∧ path ≠ r.basePath then none
      else if path = r.basePath then some []
      else some (splitPath (path.drop (r.basePath.length + 1)))) = sc
  match sc with
  | none => rfl
  | some matchSegs =>
    by_cases hempty : matchSegs = []
    · simp only [if_pos hempty]
    · simp only [if_neg hempty]
      by_cases ha : r.anchored = true
      · simp only [ha, if_true]
        by_cases hpm : (r.dirOnly && !isDir) = true
        · simp only [hpm, if_true]
          exact (matchSegmentsPrefixMode_bridge r.segments matchSegs (tick ctx).2 ci htm2).1
        · rw [Bool.not_eq_true] at hpm
          simp only [hpm, Bool.false_eq_true, if_false]
          exact (matchSegmentsExact_bridge r.segments matchSegs (tick ctx).2 ci htm2).1
      · rw [Bool.not_eq_true] at ha
        simp only [ha, Bool.false_eq_true, if_false]
        obtain ⟨f1, f2⟩ := floatLoop_bridge r.segments
          (if (if (r.dirOnly && !isDir) = true then (matchSegs.length : Int) - 1
            else (matchSegs.length : Int) - (r.segments.length : Int)) < 0 then 0
           else (if (r.dirOnly && !isDir) = true then (matchSegs.length : Int) - 1
            else (matchSegs.length : Int) - (r.segments.length : Int)).toNat + 1)
          matchSegs (r.dirOnly && !isDir) ci (tick ctx).2 htm2
        have hf2 : (floatLoop r.segments matchSegs
            (if (if (r.dirOnly && !isDir) = true then (matchSegs.length : Int) - 1
              else (matchSegs.length : Int) - (r.segments.length : Int)) < 0 then 0
             else (if (r.dirOnly && !isDir) = true then (matchSegs.length : Int) - 1
              else (matchSegs.length : Int) - (r.segments.length : Int)).toNat + 1)
            (r.dirOnly && !isDir) ci (tick ctx).2).2.maxIter < 0 := by
          rw [f2]; exact htm2
        by_cases hfp : floatLoopPure r.segments matchSegs
            (if (if (r.dirOnly && !isDir) = true then (matchSegs.length : Int) - 1
              else (matchSegs.length : Int) - (r.segments.length : Int)) < 0 then 0
             else (if (r.dirOnly && !isDir) = true then (matchSegs.length : Int) - 1
              else (matchSegs.length : Int) - (r.segments.length : Int)).toNat + 1)
            (r.dirOnly && !isDir) ci = true
        · rw [if_pos hfp] at f1
          simp only [hfp, if_true, f1]
        · rw [Bool.not_eq_true] at hfp
          rw [hfp] at f1
          simp only [if_false, Bool.false_eq_true] at f1
          simp only [hfp, Bool.false_eq_true, if_false, f1]
          match hrs : r.segments with
          | [] => rfl
          | seg0 :: rest =>
            rw [hrs] at hf2
            by_cases hds : seg0.doubleStar = true
            · simp only [hds, if_true]
              by_cases hpm : (r.dirOnly && !isDir) = true
              · simp only [hpm, if_true] at hf2 ⊢
                exact (matchSegmentsPrefixMode_bridge (seg0 :: rest) matchSegs _ ci hf2).1
              · rw [Bool.not_eq_true] at hpm
                simp only [hpm, Bool.false_eq_true, if_false] at hf2 ⊢
                exact (matchSegmentsExact_bridge (seg0 :: rest) matchSegs _ ci hf2).1
            · rw [Bool.not_eq_true] at hds
              simp only [hds, Bool.false_eq_true, if_false]

/-- `starLoopPure f` succeeds exactly when `f` accepts some suffix. -/
theorem starLoopPure_iff {α : Type} (g : List α → Bool) (path : List α) :
    starLoopPure g path = true ↔ ∃ i, i ≤ path.length ∧ g (path.drop i) = true := by
  induction path with
  | nil =>
    constructor
    · intro h
      exact ⟨0, Nat.le_refl 0, h⟩
    · rintro ⟨i, _, hg⟩
      simpa [List.drop_nil] using hg
  | cons x rest ih =>
    unfold starLoopPure
    by_cases hx : g (x :: rest) = true
    · simp only [hx, if_true]
      constructor
      · intro _
        exact ⟨0, by simp, hx⟩
      · intro _; trivial
    · rw [Bool.not_eq_true] at hx
      simp only [hx, Bool.false_eq_true, if_false]
      rw [ih]
      constructor
      · rintro ⟨i, hi, hg⟩
        exact ⟨i + 1, by simpa using hi, by simpa using hg⟩
      · rintro ⟨i, hi, hg⟩
        match i with
        | 0 =>
          rw [List.drop_zero] at hg
          rw [hg] at hx
          simp at hx
        | i + 1 =>
          exact ⟨i, by simpa using hi, by simpa using hg⟩


/-! ## PREFIX mode is "match a strict prefix, with a segment left over"
(towards C4) -/

theorem prefixModePure_iff_exact (ci : Bool) : ∀ (pattern : List segment)
    (path : List (List Nat)),
    prefixModePure pattern path ci = true ↔
      ∃ n, n < path.length ∧ exactPure pattern (path.take n) ci = true := by
  intro pattern
  induction pattern with
  | nil =>
    intro path
    cases path with
    | nil =>
      constructor
      · intro h; simp [prefixModePure] at h
      · rintro ⟨n, hn, _⟩; simp at hn
    | cons p0 prest =>
      constructor
      · intro _
        exact ⟨0, by simp, by simp [exactPure]⟩
      · intro _
        simp [prefixModePure]
  | cons seg pr ih =>
    intro path
    by_cases hds : seg.doubleStar = true
    · rw [show prefixModePure (seg :: pr) path ci =
          starLoopPure (fun p => prefixModePure pr p ci) path by
        simp [prefixModePure, hds]]
      rw [starLoopPure_iff]
      constructor
      · rintro ⟨i, hi, hp⟩
        obtain ⟨m, hm, he⟩ := (ih (path.drop i)).mp hp
        rw [List.length_drop] at hm
        refine ⟨i + m, by omega, ?_⟩
        rw [show exactPure (seg :: pr) (path.take (i + m)) ci =
            starLoopPure (fun p => exactPure pr p ci) (path.take (i + m)) by
          simp [exactPure, hds]]
        rw [starLoopPure_iff]
        refine ⟨i, ?_, ?_⟩
        · rw [List.length_take]; omega
        · rw [List.drop_take]
          have h2 : i + m - i = m := by omega
          rw [h2]
          exact he
      · rintro ⟨n, hn, he⟩
        rw [show exactPure (seg :: pr) (path.take n) ci =
            starLoopPure (fun p => exactPure pr p ci) (path.take n) by
          simp [exactPure, hds]] at he
        rw [starLoopPure_iff] at he
        obtain ⟨j, hj, he2⟩ := he
        rw [List.length_take] at hj
        rw [List.drop_take] at he2
        refine ⟨j, by omega, ?_⟩
        rw [ih (path.drop j)]
        refine ⟨n - j, ?_, he2⟩
        rw [List.length_drop]
        omega
    · rw [Bool.not_eq_true] at hds
      cases path with
      | nil =>
        constructor
        · intro h; simp [prefixModePure, hds] at h
        · rintro ⟨n, hn, _⟩; simp at hn
      | cons p0 prest =>
        by_cases hs : singleSegmentPure seg p0 ci = false
        · rw [show prefixModePure (seg :: pr) (p0 :: prest) ci = false by
            simp [prefixModePure, hds, hs]]
          constructor
          · intro h; simp at h
          · rintro ⟨n, hn, he⟩
            match n with
            | 0 => simp [exactPure, hds] at he
            | m + 1 =>
              rw [List.take_succ_cons] at he
              simp [exactPure, hds, hs] at he
        · rw [show prefixModePure (seg :: pr) (p0 :: prest) ci =
              prefixModePure pr prest ci by
            simp [prefixModePure, hds, hs]]
          rw [ih prest]
          constructor
          · rintro ⟨m, hm, he⟩
            refine ⟨m + 1, by simp; omega, ?_⟩
            rw [List.take_succ_cons]
            rw [show exactPure (seg :: pr) (p0 :: prest.take m) ci =
                exactPure pr (prest.take m) ci by
              simp [exactPure, hds, hs]]
            exact he
          · rintro ⟨n, hn, he⟩
            match n with
            | 0 => simp [exactPure, hds] at he
            | m + 1 =>
              rw [List.take_succ_cons] at he
              rw [show exactPure (seg :: pr) (p0 :: prest.take m) ci =
                  exactPure pr (prest.take m) ci by
                simp [exactPure, hds, hs]] at he
              refine ⟨m, by simp at hn; omega, he⟩

/-! ## The rule loop is last-match-wins (towards C1) -/

theorem foldl_matchStep_lastMatch (path : List Nat) (segs : List (List Nat))
    (isDir ci : Bool) : ∀ (rules : List rule) (ctx : matchContext) (acc : MatchResult),
    (rules.foldl (matchStep path segs isDir ci) (acc, ctx)).1 =
      (match (matchedAux rules path segs isDir ci ctx).1.getLast? with
       | none => acc
       | some r => lastMatchResultOf r) := by
  intro rules
  induction rules with
  | nil => intro ctx acc; rfl
  | cons r rest ih =>
    intro ctx acc
    rw [List.foldl_cons]
    by_cases hm : (matchRule r path segs isDir ci ctx).1 = true
    · have hstep : matchStep path segs isDir ci (acc, ctx) r =
          (lastMatchResultOf r, (matchRule r path segs isDir ci ctx).2) := by
        simp [matchStep, lastMatchResultOf, hm]
      rw [hstep, ih]
      have haux : (matchedAux (r :: rest) path segs isDir ci ctx).1 =
          r :: (matchedAux rest path segs isDir ci
            (matchRule r path segs isDir ci ctx).2).1 := by
        simp [matchedAux, hm]
      rw [haux]
      cases hrest : (matchedAux rest path segs isDir ci
          (matchRule r path segs isDir ci ctx).2).1 with
      | nil => simp
      | cons x xs =>
        rw [List.getLast?_cons_cons]
        cases hgl : (x :: xs).getLast? with
        | none => simp at hgl
        | some y => rfl
    · rw [Bool.not_eq_true] at hm
      have hstep : matchStep path segs isDir ci (acc, ctx) r =
          (acc, (matchRule r path segs isDir ci ctx).2) := by
        simp [matchStep, hm]
      rw [hstep, ih]
      have haux : (matchedAux (r :: rest) path segs isDir ci ctx).1 =
          (matchedAux rest path segs isDir ci
            (matchRule r path segs isDir ci ctx).2).1 := by
        simp [matchedAux, hm]
      rw [haux]

/-- C1.  Last-match-wins evaluation: for every matcher state and every
query, `MatchWithReason` reports exactly the decision of the last rule
that matched during the in-order scan (ignored iff that rule is not
negated; the zero `MatchResult` when no rule matched), and on the worked
example -- root rules `*.log`, `!important.log`, `important.log` against
the file `important.log` -- the result is ignored=true with rule
`important.log` on line 3. -/
theorem C1_last_match_wins :
    (∀ (m : Matcher) (path : List Nat) (isDir : Bool),
      m.MatchWithReason path isDir = specLastMatchWins m path isDir) ∧
    mLastMatch.MatchWithReason (bytes "important.log") false =
      { Rule := bytes "important.log", BasePath := [], Line := 3,
        Ignored := true, Matched := true, Negated := false } := by
  constructor
  · intro m path isDir
    unfold Matcher.MatchWithReason specLastMatchWins
    by_cases hp : normalizePath path = []
    · simp [hp]
    · simp only [if_neg hp]
      rw [foldl_matchStep_lastMatch]
  · decide

/-- C2.  Budget-bounded termination with fail-closed degradation: the
context construction maps 0 to the default ceiling of 10000 and any other
value to itself (negative ceilings never exhaust `tick`); once the shared
counter has reached a non-negative ceiling, `matchRule`,
`matchSegmentsExact`, `matchSegmentsPrefix` and `matchGlobRecursive` (on
a nonempty pattern) all return false for the remainder of the query; and
the adversarial pattern `a/**/b/**/c/**/d` against a long non-matching
path returns false under a 1000-iteration ceiling.  (In this total
model, termination itself holds by construction: every matching function
is defined by well-founded or structural recursion.) -/
theorem C2_budget_fail_closed :
    newMatchContext 0 = { iterations := 0, maxIter := 10000 } ∧
    (∀ mi : Int, mi ≠ 0 → newMatchContext mi = { iterations := 0, maxIter := mi }) ∧
    (∀ ctx : matchContext, ctx.maxIter < 0 → (tick ctx).1 = true) ∧
    (∀ (r : rule) (path : List Nat) (segs : List (List Nat)) (isDir ci : Bool)
      (ctx : matchContext), 0 ≤ ctx.maxIter → ctx.maxIter ≤ (ctx.iterations : Int) →
      (matchRule r path segs isDir ci ctx).1 = false) ∧
    (∀ (pattern : List segment) (path : List (List Nat)) (ctx : matchContext) (ci : Bool),
      0 ≤ ctx.maxIter → ctx.maxIter ≤ (ctx.iterations : Int) →
      (matchSegmentsExact pattern path ctx ci).1 = false ∧
      (matchSegmentsPrefixMode pattern path ctx ci).1 = false) ∧
    (∀ (c : Nat) (pr s : List Nat) (ctx : matchContext),
      0 ≤ ctx.maxIter → ctx.maxIter ≤ (ctx.iterations : Int) →
      (matchGlobRecursive (c :: pr) s ctx).1 = false) ∧
    mBudget.Match (bytes "a/x/x/x/x/x/x/x/x/x/x/x/x/x/x/x/b/x/x/x/x/c/x/x/x/e") false
      = false := by
  refine ⟨by decide, ?_, tick_unlimited, matchRule_exhausted, ?_, ?_, by decide⟩
  · intro mi hmi
    unfold newMatchContext
    rw [if_neg hmi]
  · intro pattern path ctx ci h0 h1
    exact ⟨matchSegmentsExact_exhausted pattern path ctx ci h0 h1,
      matchSegmentsPrefixMode_exhausted pattern path ctx ci h0 h1⟩
  · intro c pr s ctx h0 h1
    exact matchGlobRecursive_exhausted c pr s ctx h0 h1

/-- C2 witness: the general clauses of `C2_budget_fail_closed`
instantiated at concrete inputs (ceiling 7 for the constructor clause; an
exhausted context with counter 1000 and ceiling 1000 for the fail-closed
clauses). -/
theorem C2_budget_fail_closed_witness :
    newMatchContext 7 = { iterations := 0, maxIter := 7 } ∧
    (matchRule ruleNotABC (bytes "x") [bytes "x"] false false
      { iterations := 1000, maxIter := 1000 }).1 = false ∧
    (matchSegmentsExact [] [] { iterations := 1000, maxIter := 1000 } false).1 = false ∧
    (matchGlobRecursive (bytes "a*b") (bytes "axb")
      { iterations := 1000, maxIter := 1000 }).1 = false :=
  ⟨C2_budget_fail_closed.2.1 7 (by decide),
   C2_budget_fail_closed.2.2.2.1 ruleNotABC (bytes "x") [bytes "x"] false false
     { iterations := 1000, maxIter := 1000 } (by decide) (by decide),
   (C2_budget_fail_closed.2.2.2.2.1 [] [] { iterations := 1000, maxIter := 1000 } false
     (by decide) (by decide)).1,
   C2_budget_fail_closed.2.2.2.2.2.1 97 (bytes "*b") (bytes "axb")
     { iterations := 1000, maxIter := 1000 } (by decide) (by decide)⟩

/-- C3.  Evaluation of the case-insensitive pipeline at the claim's own
example: with CaseInsensitive=true and the patterns `BUILD/` and `*.LOG`
(the input of the repository's TestMatch_CaseInsensitive), the matcher
ignores nothing -- `build`, `BUILD`, `test.log` and `test.LOG` are all
not ignored, because `AddPatterns` never lowercases the stored pattern
text while `matchSingleSegment` lowercases only the path side.  The same
matcher with lower-case patterns matches upper-case paths, isolating the
defect to the un-lowered pattern side. -/
theorem C3_case_fold_eval :
    mCaseUpper.Match (bytes "build") true = false ∧
    mCaseUpper.Match (bytes "BUILD") true = false ∧
    mCaseUpper.Match (bytes "test.log") false = false ∧
    mCaseUpper.Match (bytes "test.LOG") false = false ∧
    (matchSingleSegment { value := bytes "BUILD", wildcard := false, doubleStar := false }
      (bytes "build") true { iterations := 0, maxIter := 10000 }).1 = false ∧
    mCaseLower.Match (bytes "BUILD") true = true ∧
    mCaseLower.Match (bytes "TEST.LOG") false = true := by
  decide

/-- C7.  Normalization is idempotent: path normalization (for either
platform flavor, in particular the Unix build's `normalizePath`) and
content normalization (on arbitrary byte sequences, including repeated
BOMs and mixed CRLF/CR/LF line endings) are both idempotent. -/
theorem C7_normalization_idempotent :
    (∀ (w : Bool) (p : List Nat), normalizePathW w (normalizePathW w p) = normalizePathW w p) ∧
    (∀ p : List Nat, normalizePath (normalizePath p) = normalizePath p) ∧
    (∀ content : List Nat, normalizeContent (normalizeContent content) = normalizeContent content) :=
  ⟨normalizePathW_idem, fun p => normalizePathW_idem false p, normalizeContent_idem⟩

/-- C4.  Directory-only prefix semantics.  (i) PREFIX mode is exactly
"the pattern matches a strict prefix of the path's segments, with at
least one segment left over": with an unlimited budget,
`matchSegmentsPrefix` succeeds iff `matchSegmentsExact` accepts
`path.take n` for some `n < path.length`.  (ii) For a directory-only
rule evaluated against a non-directory candidate (anchored, root scope),
`matchRule` is PREFIX mode.  (iii) The worked example: rule `build/`
matches the directory `build`, does not match the file `build`, and
matches the file `build/output.js`. -/
theorem C4_dirOnly_prefix :
    (∀ (pattern : List segment) (path : List (List Nat)) (ci : Bool),
      (matchSegmentsPrefixMode pattern path { iterations := 0, maxIter := -1 } ci).1 = true ↔
        ∃ n, n < path.length ∧
          (matchSegmentsExact pattern (path.take n)
            { iterations := 0, maxIter := -1 } ci).1 = true) ∧
    (∀ (r : rule) (path : List Nat) (segs : List (List Nat)) (ci : Bool),
      r.dirOnly = true → r.anchored = true → r.basePath = [] → segs ≠ [] →
      matchRulePure r path segs false ci = prefixModePure r.segments segs ci) ∧
    (mBuildDir.Match (bytes "build") true = true ∧
     mBuildDir.Match (bytes "build") false = false ∧
     mBuildDir.Match (bytes "build/output.js") false = true) := by
  refine ⟨?_, ?_, by decide, by decide, by decide⟩
  · intro pattern path ci
    rw [(matchSegmentsPrefixMode_bridge pattern path
      { iterations := 0, maxIter := -1 } ci (by norm_num)).1]
    rw [prefixModePure_iff_exact]
    constructor
    · rintro ⟨n, hn, he⟩
      refine ⟨n, hn, ?_⟩
      rw [(matchSegmentsExact_bridge pattern (path.take n)
        { iterations := 0, maxIter := -1 } ci (by norm_num)).1]
      exact he
    · rintro ⟨n, hn, he⟩
      refine ⟨n, hn, ?_⟩
      rw [(matchSegmentsExact_bridge pattern (path.take n)
        { iterations := 0, maxIter := -1 } ci (by norm_num)).1] at he
      exact he
  · intro r path segs ci hd ha hb hsegs
    unfold matchRulePure
    rw [if_pos hb]
    simp only [if_neg hsegs, hd, ha, Bool.not_false, Bool.and_self, if_true]

/-- C4 witness: the dirOnly-dispatch clause applied to the anchored rule
`/build/` against the segments of `build/x`, and the PREFIX-iff clause
applied at the same inputs. -/
theorem C4_dirOnly_prefix_witness :
    matchRulePure ruleBuildAnch (bytes "build/x") [bytes "build", bytes "x"] false false =
      prefixModePure ruleBuildAnch.segments [bytes "build", bytes "x"] false :=
  C4_dirOnly_prefix.2.1 ruleBuildAnch (bytes "build/x") [bytes "build", bytes "x"] false
    (by decide) (by decide) (by decide) (by decide)

/-- C5.  Scope isolation: a rule with a non-empty scope can only match a
path that equals the scope or lies strictly inside it (first clause);
for an in-scope path the scope prefix is stripped before segment
comparison -- matching `scope ++ "/" ++ rest` against the rule equals
matching `rest` against the same rule re-rooted at the empty scope
(second clause); and the worked example: `*.tmp` under scope `src`
matches `src/x.tmp` but neither `x.tmp` nor `lib/x.tmp`. -/
theorem C5_scope_isolation :
    (∀ (r : rule) (path : List Nat) (segs : List (List Nat)) (isDir ci : Bool)
      (ctx : matchContext), r.basePath ≠ [] →
      ¬ (r.basePath ++ [47]).isPrefixOf path = true → path ≠ r.basePath →
      (matchRule r path segs isDir ci ctx).1 = false) ∧
    (∀ (r : rule) (rest : List Nat) (segs : List (List Nat)) (isDir ci : Bool)
      (ctx : matchContext), r.basePath ≠ [] →
      matchRule r (r.basePath ++ 47 :: rest) segs isDir ci ctx =
        matchRule { r with basePath := [] } rest (splitPath rest) isDir ci ctx) ∧
    (mScoped.Match (bytes "src/x.tmp") false = true ∧
     mScoped.Match (bytes "x.tmp") false = false ∧
     mScoped.Match (bytes "lib/x.tmp") false = false) := by
  refine ⟨?_, ?_, by decide, by decide, by decide⟩
  · intro r path segs isDir ci ctx hb hpre hne
    unfold matchRule
    by_cases ht : (tick ctx).1 = false
    · simp [ht]
    · simp only [ht, if_false, Bool.false_eq_true]
      simp [hb, hpre, hne]
  · intro r rest segs isDir ci ctx hb
    have hpre : (r.basePath ++ [47]).isPrefixOf (r.basePath ++ 47 :: rest) = true := by
      rw [List.isPrefixOf_iff_prefix]
      exact ⟨rest, by simp⟩
    have hne : r.basePath ++ 47 :: rest ≠ r.basePath := by
      intro h
      have hlen := congrArg List.length h
      simp at hlen
    have hdrop : (r.basePath ++ 47 :: rest).drop (r.basePath.length + 1) = rest := by
      have h1 : r.basePath ++ 47 :: rest = (r.basePath ++ [47]) ++ rest := by simp
      have h2 : r.basePath.length + 1 = (r.basePath ++ [47]).length := by simp
      rw [h1, h2, List.drop_left]
    unfold matchRule
    simp [hb, hpre, hne, hdrop]

/-- C5 witness: the out-of-scope clause of `C5_scope_isolation` applied
to the stored `src`-scoped rule against the out-of-scope path
`lib/x.tmp`, and the strip clause applied to the same rule. -/
theorem C5_scope_isolation_witness :
    (matchRule (mScoped.rules.headD ruleNotABC) (bytes "lib/x.tmp")
      [bytes "lib", bytes "x.tmp"] false false
      { iterations := 0, maxIter := 10000 }).1 = false ∧
    matchRule (mScoped.rules.headD ruleNotABC) (bytes "src" ++ 47 :: bytes "x.tmp")
      [bytes "src", bytes "x.tmp"] false false { iterations := 0, maxIter := 10000 } =
      matchRule { mScoped.rules.headD ruleNotABC with basePath := [] } (bytes "x.tmp")
        (splitPath (bytes "x.tmp")) false false { iterations := 0, maxIter := 10000 } :=
  ⟨C5_scope_isolation.1 (mScoped.rules.headD ruleNotABC) (bytes "lib/x.tmp")
     [bytes "lib", bytes "x.tmp"] false false { iterations := 0, maxIter := 10000 }
     (by decide) (by decide) (by decide),
   C5_scope_isolation.2.1 (mScoped.rules.headD ruleNotABC) (bytes "x.tmp")
     [bytes "src", bytes "x.tmp"] false false { iterations := 0, maxIter := 10000 }
     (by decide)⟩

/-- C6.  Double-star matches zero or more whole segments: `a/**/b`
matches `a/b`, `a/x/b` and `a/x/y/z/b`; and for an unanchored root-scope
rule whose first segment is double-star, a direct exact match of the
entire remaining path always suffices for `matchRule` (the special case
that makes `**/x` match the single-segment path `x` even though the
offset loop's bounds exclude it), as the worked `**/x` example shows. -/
theorem C6_double_star :
    (mDoubleStar.Match (bytes "a/b") false = true ∧
     mDoubleStar.Match (bytes "a/x/b") false = true ∧
     mDoubleStar.Match (bytes "a/x/y/z/b") false = true) ∧
    (∀ (r : rule) (path : List Nat) (segs : List (List Nat)) (isDir ci : Bool)
      (seg0 : segment) (rest : List segment),
      r.anchored = false → r.basePath = [] → segs ≠ [] →
      (r.dirOnly && !isDir) = false → r.segments = seg0 :: rest → seg0.doubleStar = true →
      exactPure r.segments segs ci = true →
      (matchRule r path segs isDir ci { iterations := 0, maxIter := -1 }).1 = true) ∧
    mLeadingStar.Match (bytes "x") false = true := by
  refine ⟨⟨by decide, by decide, by decide⟩, ?_, by decide⟩
  intro r path segs isDir ci seg0 rest ha hb hsegs hpm hrs hds hexact
  rw [hrs] at hexact
  rw [matchRule_bridge r path segs isDir ci _ (by norm_num)]
  unfold matchRulePure
  rw [if_pos hb]
  simp only [if_neg hsegs, ha, Bool.false_eq_true, if_false, hpm, hrs, hds, if_true, hexact]
  simp

/-- C6 witness: the direct-match clause applied to the `**/x` rule
against the single-segment path `x`. -/
theorem C6_double_star_witness :
    (matchRule ruleStarX (bytes "x") [bytes "x"] false false
      { iterations := 0, maxIter := -1 }).1 = true :=
  C6_double_star.2.1 ruleStarX (bytes "x") [bytes "x"] false false
    { value := [], wildcard := false, doubleStar := true }
    [{ value := bytes "x", wildcard := false, doubleStar := false }]
    (by decide) (by decide) (by decide) (by decide) (by decide) (by decide) (by decide)

set_option maxRecDepth 8000 in
/-- C8.  Character classes honour ranges and negation.  The rule
`[a-c].txt` matches `a.txt`, `b.txt` and `c.txt` but not `d.txt`; the
pattern `[!abc]` parses to the stored rule `ruleNotABC`, and that rule
matches every single-byte name outside {a, b, c} while matching none of
`a`, `b`, `c`; a class negated with `^` instead of `!` behaves the same
way.  The path separator `/` (47) is excluded from the quantification:
it can never occur inside a name, and match.go line 330 explicitly
refuses to let any character class match it (FNM_PATHNAME). -/
theorem C8_char_classes :
    (mRange.Match (bytes "a.txt") false = true ∧
     mRange.Match (bytes "b.txt") false = true ∧
     mRange.Match (bytes "c.txt") false = true ∧
     mRange.Match (bytes "d.txt") false = false) ∧
    (parseLines [] (bytes "[!abc]")).1 = [ruleNotABC] ∧
    (∀ b : Fin 256,
      ¬ ((b : Nat) = 97 ∨ (b : Nat) = 98 ∨ (b : Nat) = 99 ∨ (b : Nat) = 47) →
      (matchRule ruleNotABC [(b : Nat)] [[(b : Nat)]] false false
        { iterations := 0, maxIter := 10000 }).1 = true) ∧
    (mNegClass.Match (bytes "a") false = false ∧
     mNegClass.Match (bytes "b") false = false ∧
     mNegClass.Match (bytes "c") false = false) ∧
    (mCaretClass.Match (bytes "d") false = true ∧
     mCaretClass.Match (bytes "a") false = false) := by
  refine ⟨⟨by decide, by decide, by decide, by decide⟩, by decide, by decide,
    ⟨by decide, by decide, by decide⟩, by decide, by decide⟩

/-- C8 witness: the all-bytes clause applied at the byte `d` (100). -/
theorem C8_char_classes_witness :
    (matchRule ruleNotABC [100] [[100]] false false
      { iterations := 0, maxIter := 10000 }).1 = true :=
  C8_char_classes.2.2.1 (100 : Fin 256) (by decide)

/-- C9.  A trailing unescaped backslash invalidates only its own line.
First clause: for every line whose processed remainder (after
trailing-whitespace trimming and negate/hash/dirOnly stripping) ends in
a backslash with an odd trailing-backslash run, `parseLine` produces no
rule and exactly the warning `trailing backslash is invalid (pattern
never matches)`.  Second clause: in the batch
`*.log \n bad\ \n keep.txt`, line 2 yields only that warning while
lines 1 and 3 still yield their rules. -/
theorem C9_trailing_backslash :
    (∀ (l : List Nat) (n : Nat) (bp : List Nat),
      trimTrailingWhitespace l ≠ [] →
      (trimTrailingWhitespace l).head? ≠ some 35 →
      (stripDirOnly (stripHash (stripNegate (trimTrailingWhitespace l)).2)).2 ≠ [] →
      (stripDirOnly (stripHash (stripNegate (trimTrailingWhitespace l)).2)).2.getLast? =
        some 92 →
      trailingBackslashCount
        (stripDirOnly (stripHash (stripNegate (trimTrailingWhitespace l)).2)).2 % 2 = 1 →
      parseLine l n bp =
        (none, some { Pattern := trimTrailingWhitespace l,
                      Message := bytes "trailing backslash is invalid (pattern never matches)",
                      Line := n, BasePath := [] })) ∧
    parseLines [] (bytes "*.log\nbad\\\nkeep.txt") =
      ([{ pattern := bytes "*.log", basePath := [],
          segments := [{ value := bytes "*.log", wildcard := true, doubleStar := false }],
          line := 1, negate := false, dirOnly := false, anchored := false },
        { pattern := bytes "keep.txt", basePath := [],
          segments := [{ value := bytes "keep.txt", wildcard := false, doubleStar := false }],
          line := 3, negate := false, dirOnly := false, anchored := false }],
       [{ Pattern := bytes "bad\\",
          Message := bytes "trailing backslash is invalid (pattern never matches)",
          Line := 2, BasePath := [] }]) := by
  refine ⟨?_, by decide⟩
  intro l n bp h1 h2 h3 h4 h5
  simp only [parseLine]
  rw [if_neg h1, if_neg h2, if_neg h3, if_pos ⟨h4, h5⟩]

/-- C9 witness: the per-line clause applied to the line `bad\` at line
number 2. -/
theorem C9_trailing_backslash_witness :
    parseLine (bytes "bad\\") 2 [] =
      (none, some { Pattern := bytes "bad\\",
                    Message := bytes "trailing backslash is invalid (pattern never matches)",
                    Line := 2, BasePath := [] }) :=
  C9_trailing_backslash.1 (bytes "bad\\") 2 []
    (by decide) (by decide) (by decide) (by decide) (by decide)

end GoIgnore
